import Mathlib

/-!
Verification development for the photo-organizer repository.

The two algorithmic cores are shallowly embedded here:
  * the similarity grouping engine (`src/group/index.ts`, `src/group/clip.ts`):
    `phashSimilarity`, `cosineSimilarity`, `areLinked`, `groupPhotosTransitive`;
  * the composite quality scorer (`src/score/score.ts`, `src/review/review.ts`):
    `clamp01`, `weightedSum`, the sub-score derivations and the review
    recommendation loop.

Modelling conventions:
  * JavaScript numbers are idealized as exact rationals (`ℚ`) or reals (`ℝ`);
    rounding of IEEE doubles is out of scope.  The special values `NaN` and
    `±Infinity`, which this code can genuinely produce (division by a zero
    norm, out-of-range indexing `b[i]!` inside `reduce`), are modelled
    explicitly by the `JSNum` type, since several spec sentences are about
    exactly these values.
  * A thrown exception (only possible here from `BigInt("0x" + s)` on a
    non-hex string inside `phashSimilarity`) is modelled by `Option`:
    `none` is a throw that propagates to the caller.
  * JS truthiness tests on `string | null` and `number | null` fields are
    modelled exactly: `null`, `""` and `0` are falsy.
-/

namespace PhotoOrg

/-- Model of a JavaScript `number` result: an exact value, `NaN`, or a signed
infinity. -/
inductive JSNum where
  | nan : JSNum
  | inf : JSNum
  | ninf : JSNum
  | num : ℝ → JSNum

/-- JS division `x / y` for finite `x, y`: division by `0` yields `NaN` for
`0 / 0` and a signed infinity otherwise. -/
noncomputable def jsDiv (x y : ℝ) : JSNum :=
  if y = 0 then (if x = 0 then JSNum.nan else if 0 < x then JSNum.inf else JSNum.ninf)
  else JSNum.num (x / y)

/-- JS comparison `v > t` for a finite `t`: any comparison with `NaN` is
false. -/
def jsGT : JSNum → ℝ → Prop
  | JSNum.nan, _ => False
  | JSNum.inf, _ => True
  | JSNum.ninf, _ => False
  | JSNum.num x, t => t < x

/-- The dot product `a.reduce((sum, v, i) => sum + v * b[i]!, 0)` from
`cosineSimilarity` (src/group/clip.ts).  When `a` is longer than `b` the
access `b[i]!` yields `undefined`, so the JS sum becomes `NaN`; that case is
`none`. -/
def dotJS : List ℚ → List ℚ → Option ℚ
  | [], _ => some 0
  | _ :: _, [] => none
  | x :: xs, y :: ys => (dotJS xs ys).map (fun s => x * y + s)

/-- The squared-norm accumulator `l.reduce((s, v) => s + v * v, 0)` from
`cosineSimilarity` (src/group/clip.ts). -/
def sumSq (l : List ℚ) : ℚ := l.foldl (fun s v => s + v * v) 0

/-- `cosineSimilarity` from src/group/clip.ts lines 52-57:
`dot / (Math.sqrt(sumSq a) * Math.sqrt(sumSq b))`, with no guard against a
zero denominator. -/
noncomputable def cosineSimilarity (a b : List ℚ) : JSNum :=
  match dotJS a b with
  | none => JSNum.nan
  | some d => jsDiv (d : ℝ) (Real.sqrt (sumSq a) * Real.sqrt (sumSq b))

/-- Computable decision procedure for `jsGT (cosineSimilarity a b) t`
(justified by `cosGtB_iff` below): the square-root comparison is replaced by
comparisons of squares over `ℚ`. -/
def cosGtB (a b : List ℚ) (t : ℚ) : Bool :=
  match dotJS a b with
  | none => false
  | some d =>
    if sumSq a = 0 ∨ sumSq b = 0 then false
    else if t < 0 then
      (if 0 ≤ d then true else decide (d ^ 2 < t ^ 2 * (sumSq a * sumSq b)))
    else
      (if d ≤ 0 then false else decide (t ^ 2 * (sumSq a * sumSq b) < d ^ 2))

lemma sumSq_foldl_acc (l : List ℚ) (acc : ℚ) :
    l.foldl (fun s v => s + v * v) acc = acc + sumSq l := by
  induction l generalizing acc with
  | nil => simp [sumSq]
  | cons x xs ih =>
    simp only [sumSq, List.foldl_cons, zero_add] at *
    rw [ih (acc + x * x), ih (x * x)]
    ring

lemma sumSq_cons (x : ℚ) (xs : List ℚ) : sumSq (x :: xs) = x * x + sumSq xs := by
  simp only [sumSq, List.foldl_cons, zero_add]
  exact sumSq_foldl_acc xs (x * x)

lemma sumSq_nonneg (l : List ℚ) : 0 ≤ sumSq l := by
  induction l with
  | nil => simp [sumSq]
  | cons x xs ih =>
    rw [sumSq_cons]
    have := mul_self_nonneg x
    linarith

lemma sumSq_eq_zero_mem {l : List ℚ} (h : sumSq l = 0) : ∀ v ∈ l, v = 0 := by
  induction l with
  | nil => simp
  | cons x xs ih =>
    rw [sumSq_cons] at h
    have hx2 : 0 ≤ x * x := mul_self_nonneg x
    have hxs : 0 ≤ sumSq xs := sumSq_nonneg xs
    have hx : x * x = 0 := by linarith
    have hrest : sumSq xs = 0 := by linarith
    intro v hv
    rw [List.mem_cons] at hv
    rcases hv with rfl | hv
    · exact mul_self_eq_zero.mp hx
    · exact ih hrest v hv

lemma dotJS_eq_zero_left {a b : List ℚ} (ha : ∀ v ∈ a, v = 0) {d : ℚ}
    (h : dotJS a b = some d) : d = 0 := by
  induction a generalizing b d with
  | nil =>
    simp only [dotJS, Option.some.injEq] at h
    exact h.symm
  | cons x xs ih =>
    cases b with
    | nil => simp [dotJS] at h
    | cons y ys =>
      simp only [dotJS, Option.map_eq_some'] at h
      obtain ⟨s, hs, hd⟩ := h
      have hx : x = 0 := ha x (by simp)
      have hss : s = 0 := ih (fun v hv => ha v (by simp [hv])) hs
      rw [← hd, hx, hss]
      ring

lemma dotJS_eq_zero_right {a b : List ℚ} (hb : ∀ v ∈ b, v = 0) {d : ℚ}
    (h : dotJS a b = some d) : d = 0 := by
  induction a generalizing b d with
  | nil =>
    simp only [dotJS, Option.some.injEq] at h
    exact h.symm
  | cons x xs ih =>
    cases b with
    | nil => simp [dotJS] at h
    | cons y ys =>
      simp only [dotJS, Option.map_eq_some'] at h
      obtain ⟨s, hs, hd⟩ := h
      have hy : y = 0 := hb y (by simp)
      have hss : s = 0 := ih (fun v hv => hb v (by simp [hv])) hs
      rw [← hd, hy, hss]
      ring

lemma sq_cast_iff_lt (x y : ℚ) : ((x : ℝ) < (y : ℝ)) ↔ x < y := by
  exact_mod_cast Iff.rfl

/-- Correctness of the computable comparator: `cosGtB a b t` decides the JS
comparison `cosineSimilarity(a, b) > t`. -/
theorem cosGtB_iff (a b : List ℚ) (t : ℚ) :
    cosGtB a b t = true ↔ jsGT (cosineSimilarity a b) (t : ℝ) := by
  cases h : dotJS a b with
  | none => simp [cosGtB, cosineSimilarity, h, jsGT]
  | some d =>
    simp only [cosGtB, cosineSimilarity, h]
    by_cases hz : sumSq a = 0 ∨ sumSq b = 0
    · have hd0 : d = 0 := by
        rcases hz with hz0 | hz0
        · exact dotJS_eq_zero_left (sumSq_eq_zero_mem hz0) h
        · exact dotJS_eq_zero_right (sumSq_eq_zero_mem hz0) h
      have hden : Real.sqrt ((sumSq a : ℚ) : ℝ) * Real.sqrt ((sumSq b : ℚ) : ℝ) = 0 := by
        rcases hz with hz0 | hz0 <;> rw [hz0] <;> simp
      rw [if_pos hz, hd0, hden]
      simp [jsDiv, jsGT]
    · have hz' := hz
      push_neg at hz'
      obtain ⟨ha0, hb0⟩ := hz'
      have hA : (0 : ℝ) < ((sumSq a : ℚ) : ℝ) := by
        have := lt_of_le_of_ne (sumSq_nonneg a) (Ne.symm ha0)
        exact_mod_cast this
      have hB : (0 : ℝ) < ((sumSq b : ℚ) : ℝ) := by
        have := lt_of_le_of_ne (sumSq_nonneg b) (Ne.symm hb0)
        exact_mod_cast this
      have hden : 0 < Real.sqrt ((sumSq a : ℚ) : ℝ) * Real.sqrt ((sumSq b : ℚ) : ℝ) :=
        mul_pos (Real.sqrt_pos.mpr hA) (Real.sqrt_pos.mpr hB)
      rw [if_neg hz]
      simp only [jsDiv, if_neg (ne_of_gt hden), jsGT]
      rw [lt_div_iff₀ hden]
      have hsq : Real.sqrt ((sumSq a : ℚ) : ℝ) * Real.sqrt ((sumSq b : ℚ) : ℝ)
          = Real.sqrt (((sumSq a : ℚ) : ℝ) * ((sumSq b : ℚ) : ℝ)) :=
        (Real.sqrt_mul (le_of_lt hA) _).symm
      set s : ℝ := Real.sqrt (((sumSq a : ℚ) : ℝ) * ((sumSq b : ℚ) : ℝ)) with hs
      have hspos : 0 < s := by
        rw [hs]
        exact Real.sqrt_pos.mpr (mul_pos hA hB)
      have hs2 : s ^ 2 = ((sumSq a : ℚ) : ℝ) * ((sumSq b : ℚ) : ℝ) := by
        rw [hs]
        exact Real.sq_sqrt (le_of_lt (mul_pos hA hB))
      rw [hsq]
      have hcast : ((d ^ 2 : ℚ) : ℝ) < ((t ^ 2 * (sumSq a * sumSq b) : ℚ) : ℝ)
          ↔ (d : ℝ) ^ 2 < (t : ℝ) ^ 2 * s ^ 2 := by
        rw [hs2]
        push_cast
        exact Iff.rfl
      have hcast' : ((t ^ 2 * (sumSq a * sumSq b) : ℚ) : ℝ) < ((d ^ 2 : ℚ) : ℝ)
          ↔ (t : ℝ) ^ 2 * s ^ 2 < (d : ℝ) ^ 2 := by
        rw [hs2]
        push_cast
        exact Iff.rfl
      by_cases ht : t < 0
      · have htR : (t : ℝ) < 0 := by exact_mod_cast ht
        have hts : (t : ℝ) * s < 0 := mul_neg_of_neg_of_pos htR hspos
        rw [if_pos ht]
        by_cases hdp : 0 ≤ d
        · have hdR : (0 : ℝ) ≤ (d : ℝ) := by exact_mod_cast hdp
          rw [if_pos hdp]
          have : (t : ℝ) * s < (d : ℝ) := lt_of_lt_of_le hts hdR
          simp [this]
        · have hdR : (d : ℝ) < 0 := by
            push_neg at hdp
            exact_mod_cast hdp
          rw [if_neg hdp]
          simp only [decide_eq_true_eq]
          rw [← sq_cast_iff_lt, hcast]
          constructor
          · intro hsqlt
            by_contra hcon
            push_neg at hcon
            nlinarith [mul_nonneg (show (0 : ℝ) ≤ (t : ℝ) * s - (d : ℝ) by linarith)
              (show (0 : ℝ) ≤ -((t : ℝ) * s) - (d : ℝ) by linarith)]
          · intro hlt
            nlinarith [mul_pos (show (0 : ℝ) < (d : ℝ) - (t : ℝ) * s by linarith)
              (show (0 : ℝ) < -((t : ℝ) * s) - (d : ℝ) by linarith)]
      · have htR : (0 : ℝ) ≤ (t : ℝ) := by
          push_neg at ht
          exact_mod_cast ht
        have hts : (0 : ℝ) ≤ (t : ℝ) * s := mul_nonneg htR (le_of_lt hspos)
        rw [if_neg ht]
        by_cases hdp : d ≤ 0
        · have hdR : (d : ℝ) ≤ 0 := by exact_mod_cast hdp
          rw [if_pos hdp]
          have : ¬ ((t : ℝ) * s < (d : ℝ)) := by linarith
          simp [this]
        · have hdR : (0 : ℝ) < (d : ℝ) := by
            push_neg at hdp
            exact_mod_cast hdp
          rw [if_neg hdp]
          simp only [decide_eq_true_eq]
          rw [← sq_cast_iff_lt, hcast']
          constructor
          · intro hsqlt
            by_contra hcon
            push_neg at hcon
            nlinarith [mul_nonneg (show (0 : ℝ) ≤ (t : ℝ) * s - (d : ℝ) by linarith)
              (show (0 : ℝ) ≤ (t : ℝ) * s + (d : ℝ) by linarith)]
          · intro hlt
            nlinarith [mul_pos (show (0 : ℝ) < (d : ℝ) - (t : ℝ) * s by linarith)
              (show (0 : ℝ) < (d : ℝ) + (t : ℝ) * s by linarith)]

/-- Decidability of the JS cosine comparison, through `cosGtB_iff`. -/
instance cosGtDecidable (a b : List ℚ) (t : ℚ) :
    Decidable (jsGT (cosineSimilarity a b) (t : ℝ)) :=
  decidable_of_iff (cosGtB a b t = true) (cosGtB_iff a b t)

/-- Value of a single hexadecimal digit, as accepted by JS `BigInt("0x…")`. -/
def hexDigit? (c : Char) : Option ℕ :=
  if '0' ≤ c ∧ c ≤ '9' then some (c.toNat - '0'.toNat)
  else if 'a' ≤ c ∧ c ≤ 'f' then some (c.toNat - 'a'.toNat + 10)
  else if 'A' ≤ c ∧ c ≤ 'F' then some (c.toNat - 'A'.toNat + 10)
  else none

/-- `BigInt("0x" + s)`: the numeric value of a hex string, or `none` when the
constructor throws (`s` empty or containing a non-hex character). -/
def hexVal? (s : String) : Option ℕ :=
  if s = "" then none
  else s.data.foldl (fun acc c => acc.bind fun n => (hexDigit? c).map fun d => 16 * n + d)
    (some 0)

/-- The Kernighan bit-count loop of `phashSimilarity`
(`while (x) { x &= x - 1n; bits++ }`), with an explicit bound `fuel` on the
number of iterations to make the recursion structural; `bitsOfFuel_eq` shows
any `fuel ≥ bitsWF x` (in particular `fuel = x`) gives the loop's exact
count. -/
def bitsOfFuel : ℕ → ℕ → ℕ
  | 0, _ => 0
  | fuel + 1, x => if x = 0 then 0 else bitsOfFuel fuel (x &&& (x - 1)) + 1

/-- The same loop as a well-founded recursion (the reference semantics of the
unbounded JS `while`). -/
def bitsWF (x : ℕ) : ℕ :=
  if h : x = 0 then 0
  else
    have : x &&& (x - 1) < x :=
      lt_of_le_of_lt Nat.and_le_right (Nat.sub_lt (Nat.pos_of_ne_zero h) one_pos)
    bitsWF (x &&& (x - 1)) + 1

lemma bitsWF_zero : bitsWF 0 = 0 := by
  rw [bitsWF]
  simp

lemma bitsWF_pos {x : ℕ} (h : x ≠ 0) : bitsWF x = bitsWF (x &&& (x - 1)) + 1 := by
  rw [bitsWF]
  simp [h]

lemma bitsWF_le_self (x : ℕ) : bitsWF x ≤ x := by
  induction x using Nat.strong_induction_on with
  | _ x ih =>
    by_cases h : x = 0
    · subst h
      simp [bitsWF_zero]
    · have hlt : x &&& (x - 1) < x :=
        lt_of_le_of_lt Nat.and_le_right (Nat.sub_lt (Nat.pos_of_ne_zero h) one_pos)
      rw [bitsWF_pos h]
      have := ih _ hlt
      omega

/-- With enough fuel the bounded loop equals the unbounded one. -/
lemma bitsOfFuel_eq : ∀ fuel x, bitsWF x ≤ fuel → bitsOfFuel fuel x = bitsWF x := by
  intro fuel
  induction fuel with
  | zero =>
    intro x hx
    by_cases h : x = 0
    · subst h
      simp [bitsOfFuel, bitsWF_zero]
    · rw [bitsWF_pos h] at hx
      omega
  | succ fuel ih =>
    intro x hx
    by_cases h : x = 0
    · subst h
      simp [bitsOfFuel, bitsWF_zero]
    · rw [bitsWF_pos h] at hx ⊢
      simp only [bitsOfFuel, if_neg h]
      rw [ih _ (by omega)]

/-- `phashSimilarity` from src/group/index.ts lines 158-168:
`1 - popcount(BigInt("0x"+a) XOR BigInt("0x"+b)) / 64`.  `none` models the
`SyntaxError` thrown by `BigInt` on a non-hex (or empty) string. -/
def phashSimilarity (a b : String) : Option ℚ :=
  match hexVal? a, hexVal? b with
  | some A, some B => some (1 - (bitsOfFuel (A ^^^ B) (A ^^^ B) : ℚ) / 64)
  | _, _ => none

/-- The grouper's per-photo record (`Image` in src/group/index.ts): `hash` and
`time` are `string | null` / `number | null`, `clip` a numeric vector. -/
structure Image where
  path : String
  hash : Option String
  time : Option ℚ
  clip : List ℚ
deriving DecidableEq

/-- The four grouping thresholds destructured by `groupPhotosTransitive`. -/
structure GroupConfig where
  phashThreshold : ℚ
  secondsSeparated : ℚ
  cosineSimilarityThreshold : ℚ
  cosineMaxMinutes : ℚ
deriving DecidableEq

/-- `areLinked` from src/group/index.ts lines 95-136.  `none` models the
exception thrown by `phashSimilarity` when both hash strings are truthy but
one of them is not valid hex.  JS truthiness is modelled exactly: a `null` or
`""` hash and a `null` or `0` time are falsy. -/
def areLinked (a b : Image) (o : GroupConfig) : Option Bool :=
  let similar? : Option Bool :=
    match a.hash, b.hash with
    | some ha, some hb =>
      if ha = "" ∨ hb = "" then some false
      else
        match phashSimilarity ha hb with
        | some sim => some (decide (o.phashThreshold ≤ sim))
        | none => none
    | _, _ => some false
  let cosineWithinTime : Bool :=
    match a.time, b.time with
    | some ta, some tb =>
      if ta = 0 ∨ tb = 0 then true else decide (|ta - tb| ≤ o.cosineMaxMinutes * 60000)
    | _, _ => true
  let closeInTime : Bool :=
    match a.time, b.time with
    | some ta, some tb => decide (|ta - tb| ≤ o.secondsSeparated * 1000)
    | _, _ => false
  let cos : Bool := decide (jsGT (cosineSimilarity a.clip b.clip) (o.cosineSimilarityThreshold : ℝ))
  similar?.map (fun similar => similar || closeInTime || (cos && cosineWithinTime))

/-- The inner `for (const other of photos)` scan of `groupPhotosTransitive`:
photos already used or sharing the current photo's path are skipped, photos
linked to `current` are marked used and pushed on the frontier.  A `none`
from `areLinked` (a thrown exception) aborts the whole grouping run. -/
def scanAux (o : GroupConfig) (current : Image) :
    List Image → List String → List Image → Option (List String × List Image)
  | [], used, queue => some (used, queue)
  | other :: rest, used, queue =>
    if other.path ∈ used ∨ other.path = current.path then
      scanAux o current rest used queue
    else
      match areLinked current other o with
      | none => none
      | some true => scanAux o current rest (other.path :: used) (other :: queue)
      | some false => scanAux o current rest used queue

/-- The `while (queue.length)` flood-fill loop of `groupPhotosTransitive`.
The JS `queue.push` / `queue.pop()` pair works the tail of the array, which
is modelled by `cons` / head.  `fuel` bounds the number of iterations to make
the recursion structural; each iteration pops one frontier photo and every
push marks a fresh path as used, so `photos.length + 1` iterations always
suffice (`floodLoop_total` below). -/
def floodLoop (o : GroupConfig) (photos : List Image) :
    ℕ → List Image → List String → List Image → Option (List Image × List String)
  | _, [], used, group => some (group, used)
  | 0, _ :: _, _, _ => none
  | fuel + 1, current :: queue, used, group =>
    match scanAux o current photos used queue with
    | none => none
    | some (used', queue') => floodLoop o photos fuel queue' used' (group ++ [current])

/-- The outer `for (const seed of photos)` loop of `groupPhotosTransitive`. -/
def groupLoop (o : GroupConfig) (photos : List Image) :
    List Image → List String → List (List String) → Option (List (List String))
  | [], _, groups => some groups
  | seed :: rest, used, groups =>
    if seed.path ∈ used then groupLoop o photos rest used groups
    else
      match floodLoop o photos (photos.length + 1) [seed] (seed.path :: used) [] with
      | none => none
      | some (group, used') => groupLoop o photos rest used' (groups ++ [group.map Image.path])

/-- `groupPhotosTransitive` from src/group/index.ts lines 37-91: flood-fill
connected components of the `areLinked` relation.  Each emitted group is the
list of member paths (the source maps members to `{ path }` records); `none`
models an exception escaping the grouper. -/
def groupPhotosTransitive (photos : List Image) (o : GroupConfig) :
    Option (List (List String)) :=
  groupLoop o photos photos [] []

/-! ### Spec-side predicates (for refinement claims)

These definitions follow the wording of the specification, to be compared
with the code-derived definitions above. -/

/-- Spec reading of signal 1: "both hashes are present and the normalized
hash similarity `1 - popcount(hashA XOR hashB)/64` is >= phashThreshold".
The similarity formula only denotes when the hash strings parse as hex. -/
def specHashSignal (a b : Image) (o : GroupConfig) : Bool :=
  match a.hash, b.hash with
  | some ha, some hb =>
    match phashSimilarity ha hb with
    | some s => decide (o.phashThreshold ≤ s)
    | none => false
  | _, _ => false

/-- Spec reading of signal 2: "both capture times are present and
`|timeA - timeB| <= secondsSeparated * 1000` ms". -/
def specTimeSignal (a b : Image) (o : GroupConfig) : Bool :=
  match a.time, b.time with
  | some ta, some tb => decide (|ta - tb| ≤ o.secondsSeparated * 1000)
  | _, _ => false

/-- Spec reading of signal 3: "the cosine similarity of the two embeddings is
strictly greater than cosineSimilarityThreshold and either both timestamps
are missing or `|timeA - timeB| <= cosineMaxMinutes * 60000` ms". -/
def specCosSignal (a b : Image) (o : GroupConfig) : Bool :=
  decide (jsGT (cosineSimilarity a.clip b.clip) (o.cosineSimilarityThreshold : ℝ)) &&
    match a.time, b.time with
    | none, none => true
    | some ta, some tb => decide (|ta - tb| ≤ o.cosineMaxMinutes * 60000)
    | _, _ => false

/-- Claim C1's linking predicate, following the spec's words: the disjunction
of the three signals. -/
def specLinkedB (a b : Image) (o : GroupConfig) : Bool :=
  specHashSignal a b o || specTimeSignal a b o || specCosSignal a b o

/-- Signal 3 as the code actually implements it: JS truthiness makes a
timestamp that is `null` or `0` count as "missing" (within the window by
default). -/
def specCosSignalAmended (a b : Image) (o : GroupConfig) : Bool :=
  decide (jsGT (cosineSimilarity a.clip b.clip) (o.cosineSimilarityThreshold : ℝ)) &&
    match a.time, b.time with
    | some ta, some tb =>
      if ta = 0 ∨ tb = 0 then true else decide (|ta - tb| ≤ o.cosineMaxMinutes * 60000)
    | _, _ => true

/-- The amended C1 predicate: signals 1 and 2 as in the spec, signal 3 with
the code's truthiness semantics for timestamps. -/
def specLinkedAmendedB (a b : Image) (o : GroupConfig) : Bool :=
  specHashSignal a b o || specTimeSignal a b o || specCosSignalAmended a b o

/-- A record whose non-empty hash string (if any) is valid hexadecimal, so
that `phashSimilarity` cannot throw on it. -/
def HashOk (p : Image) : Prop :=
  ∀ h, p.hash = some h → h ≠ "" → (hexVal? h).isSome = true

instance (p : Image) : Decidable (HashOk p) := by
  unfold HashOk
  cases p.hash with
  | none => exact isTrue (by intro h hh; simp at hh)
  | some s =>
    by_cases hs : s = ""
    · exact isTrue (by intro h hh hne; rw [Option.some.injEq] at hh; subst hh; exact absurd hs hne)
    · cases hv : (hexVal? s).isSome with
      | true =>
        exact isTrue (by intro h hh hne; rw [Option.some.injEq] at hh; subst hh; exact hv)
      | false =>
        refine isFalse (fun hcon => ?_)
        have := hcon s rfl hs
        rw [hv] at this
        exact Bool.false_ne_true this

/-! ### Helper lemmas about the linking predicate -/

lemma hexVal?_empty : hexVal? "" = none := by
  simp [hexVal?]

lemma phashSimilarity_comm (x y : String) : phashSimilarity x y = phashSimilarity y x := by
  unfold phashSimilarity
  cases hx : hexVal? x <;> cases hy : hexVal? y <;> simp [Nat.xor_comm]

lemma dotJS_comm : ∀ {a b : List ℚ}, a.length = b.length → dotJS a b = dotJS b a := by
  intro a
  induction a with
  | nil =>
    intro b h
    cases b with
    | nil => rfl
    | cons y ys => simp at h
  | cons x xs ih =>
    intro b h
    cases b with
    | nil => simp at h
    | cons y ys =>
      simp only [List.length_cons, Nat.succ.injEq] at h
      simp only [dotJS, ih h, mul_comm x y]

lemma cosineSimilarity_comm {a b : List ℚ} (h : a.length = b.length) :
    cosineSimilarity a b = cosineSimilarity b a := by
  unfold cosineSimilarity
  rw [dotJS_comm h]
  cases hd : dotJS b a with
  | none => rfl
  | some d => rw [mul_comm]

/-- Either zero norm makes the JS cosine NaN: the dot product is then exactly
0 and the denominator is 0, so the division is `0 / 0`. -/
lemma cosineSimilarity_nan_of_degenerate {a b : List ℚ}
    (h : sumSq a = 0 ∨ sumSq b = 0) : cosineSimilarity a b = JSNum.nan := by
  cases hd : dotJS a b with
  | none => simp [cosineSimilarity, hd]
  | some d =>
    have hd0 : d = 0 := by
      rcases h with h0 | h0
      · exact dotJS_eq_zero_left (sumSq_eq_zero_mem h0) hd
      · exact dotJS_eq_zero_right (sumSq_eq_zero_mem h0) hd
    have hden : Real.sqrt ((sumSq a : ℚ) : ℝ) * Real.sqrt ((sumSq b : ℚ) : ℝ) = 0 := by
      rcases h with h0 | h0 <;> rw [h0] <;> simp
    simp [cosineSimilarity, hd, hden, jsDiv, hd0]

/-- Under valid hashes, `areLinked` never throws and computes exactly the
amended three-signal disjunction. -/
lemma areLinked_eq_specAmended (a b : Image) (o : GroupConfig)
    (hA : HashOk a) (hB : HashOk b) :
    areLinked a b o = some (specLinkedAmendedB a b o) := by
  unfold areLinked specLinkedAmendedB specHashSignal specTimeSignal specCosSignalAmended
  cases ha : a.hash with
  | none => simp
  | some ha' =>
    cases hb : b.hash with
    | none => simp
    | some hb' =>
      by_cases he : ha' = "" ∨ hb' = ""
      · have hps : phashSimilarity ha' hb' = none := by
          unfold phashSimilarity
          rcases he with he | he <;> subst he
          · rw [hexVal?_empty]
          · rw [hexVal?_empty]
            cases hexVal? ha' <;> rfl
        simp [if_pos he, hps]
      · have hane : ha' ≠ "" := fun hcon => he (Or.inl hcon)
        have hbne : hb' ≠ "" := fun hcon => he (Or.inr hcon)
        obtain ⟨A, hAv⟩ := Option.isSome_iff_exists.mp (hA ha' ha hane)
        obtain ⟨B, hBv⟩ := Option.isSome_iff_exists.mp (hB hb' hb hbne)
        have hps : phashSimilarity ha' hb'
            = some (1 - (bitsOfFuel (A ^^^ B) (A ^^^ B) : ℚ) / 64) := by
          unfold phashSimilarity
          rw [hAv, hBv]
        simp [if_neg he, hps]

/-- `areLinked` is symmetric whenever the two embedding vectors have equal
length (every other input to the predicate is used symmetrically). -/
lemma areLinked_symm (a b : Image) (o : GroupConfig)
    (h : a.clip.length = b.clip.length) : areLinked a b o = areLinked b a o := by
  unfold areLinked
  have hcos : decide (jsGT (cosineSimilarity a.clip b.clip) (o.cosineSimilarityThreshold : ℝ))
      = decide (jsGT (cosineSimilarity b.clip a.clip) (o.cosineSimilarityThreshold : ℝ)) := by
    rw [decide_eq_decide, cosineSimilarity_comm h]
  cases ha : a.hash <;> cases hb : b.hash <;>
    cases hta : a.time <;> cases htb : b.time <;>
      simp [hcos, phashSimilarity_comm, abs_sub_comm, or_comm]

/-! ### The composite quality scorer

`weightedSum`, `clamp01` and the review recommendation loop involve only
field operations, so they are embedded over exact rationals; the pixel and
face sub-score derivations need `Real.sqrt` and a real power, so they are
embedded over `ℝ`. -/

/-- `ScoreBreakdown`: the six quality sub-scores. -/
structure ScoreBreakdown where
  brightness : ℚ
  contrast : ℚ
  sharpness : ℚ
  facePresence : ℚ
  eyesOpen : ℚ
  smiling : ℚ
deriving DecidableEq

/-- The default `WEIGHTS` constant for the composite score. -/
def WEIGHTS : ScoreBreakdown :=
  { brightness := 5 / 100
    contrast := 10 / 100
    sharpness := 10 / 100
    facePresence := 15 / 100
    eyesOpen := 15 / 100
    smiling := 45 / 100 }

/-- `clamp01`: `Math.max(0, Math.min(1, x))`. -/
def clamp01 (x : ℚ) : ℚ := max 0 (min 1 x)

/-- `weightedSum`: the clamped weighted reduction of a breakdown. -/
def weightedSum (b : ScoreBreakdown) : ℚ :=
  clamp01
    (b.brightness * WEIGHTS.brightness +
      b.contrast * WEIGHTS.contrast +
      b.sharpness * WEIGHTS.sharpness +
      b.facePresence * WEIGHTS.facePresence +
      b.eyesOpen * WEIGHTS.eyesOpen +
      b.smiling * WEIGHTS.smiling)

/-- Names of the six sub-score fields, for stating per-field monotonicity. -/
inductive ScoreField where
  | brightness
  | contrast
  | sharpness
  | facePresence
  | eyesOpen
  | smiling
deriving DecidableEq, Fintype

/-- Projection of a breakdown at a named field. -/
def getField : ScoreField → ScoreBreakdown → ℚ
  | ScoreField.brightness, b => b.brightness
  | ScoreField.contrast, b => b.contrast
  | ScoreField.sharpness, b => b.sharpness
  | ScoreField.facePresence, b => b.facePresence
  | ScoreField.eyesOpen, b => b.eyesOpen
  | ScoreField.smiling, b => b.smiling

/-- The recommendation loop of `reviewGroupBun` (src/review/review.ts lines
28-36): `best` starts at `0`, and an entry only takes over when its score is
*strictly* greater than `best`. -/
def recAux : List ℚ → ℕ → ℕ → ℚ → ℕ
  | [], _, rec, _ => rec
  | v :: rest, idx, rec, best =>
    if best < v then recAux rest (idx + 1) idx v else recAux rest (idx + 1) rec best

/-- The recommended index `reviewGroupBun` computes for a list of member
scores. -/
def recommendedIndexOf (scores : List ℚ) : ℕ := recAux scores 0 0 0

/-- `i` is the first index of `l` attaining the maximum value (the spec's
"index of the member with maximum score, ties resolved by first
occurrence"). -/
def IsFirstArgmax (l : List ℚ) (i : ℕ) : Prop :=
  ∃ h : i < l.length,
    (∀ x ∈ l, x ≤ l.get ⟨i, h⟩) ∧
      ∀ j, (hj : j < i) → l.get ⟨j, lt_trans hj h⟩ < l.get ⟨i, h⟩

/-- `clamp01` over the reals, for the sub-score derivations that involve
square roots. -/
noncomputable def clamp01R (x : ℝ) : ℝ := max 0 (min 1 x)

/-- The numeric core of `computeBrightnessContrast`: the raw decoded buffer
is modelled as a list of RGB triples (the source walks the flat byte array in
strides of `channels`), guarded exactly as in the source by the
missing-metadata and too-few-channels branches.  Returns
(brightness, contrast). -/
noncomputable def computeBrightnessContrast (metaW metaH channels : ℕ)
    (data : List (ℝ × ℝ × ℝ)) : ℝ × ℝ :=
  if metaW = 0 ∨ metaH = 0 then (0, 0)
  else if channels < 3 then (0, 0)
  else
    let ys := data.map (fun p => (0.2126 * p.1 + 0.7152 * p.2.1 + 0.0722 * p.2.2) / 255)
    let pixels : ℝ := data.length
    let mean := ys.sum / pixels
    let sumSqY := (ys.map (fun y => y * y)).sum
    let variance := clamp01R (sumSqY / pixels - mean * mean)
    let stddev := Real.sqrt variance
    (clamp01R mean, clamp01R (stddev / 0.5))

/-- The numeric core of `computeSharpness`: variance of the 4-neighbour
Laplacian over interior pixels of the `w × h` greyscale grid `data`
(row-major, `[0,255]` values), mapped through the saturating curve
`energy / (energy + 0.01)`. -/
noncomputable def computeSharpness (metaW metaH w h : ℕ) (data : List ℝ) : ℝ :=
  if metaW = 0 ∨ metaH = 0 then 0
  else
    let get : ℕ → ℕ → ℝ := fun x y => data.getD (y * w + x) 0 / 255
    let count := (h - 2) * (w - 2)
    let lap : ℕ → ℕ → ℝ := fun x y =>
      get x (y - 1) + get (x - 1) y + get (x + 1) y + get x (y + 1) - 4 * get x y
    let sumSqL :=
      ((List.range (h - 2)).map (fun yy =>
        ((List.range (w - 2)).map (fun xx => lap (xx + 1) (yy + 1) ^ 2)).sum)).sum
    if count = 0 then 0
    else
      let energy := sumSqL / count
      clamp01R (energy / (energy + 0.01))

/-- Eye-aspect-ratio `ear` from six landmark points (src/score/score.ts):
`(‖p2−p6‖ + ‖p3−p5‖) / (2·‖p1−p4‖)`, `0` when the landmark list is malformed
or the denominator is not positive. -/
noncomputable def ear (pts : List (ℝ × ℝ)) : ℝ :=
  if pts.length ≠ 6 then 0
  else
    let dist : ℝ × ℝ → ℝ × ℝ → ℝ := fun p q =>
      Real.sqrt ((p.1 - q.1) ^ 2 + (p.2 - q.2) ^ 2)
    let p1 := pts.getD 0 (0, 0)
    let p2 := pts.getD 1 (0, 0)
    let p3 := pts.getD 2 (0, 0)
    let p4 := pts.getD 3 (0, 0)
    let p5 := pts.getD 4 (0, 0)
    let p6 := pts.getD 5 (0, 0)
    let den := 2 * dist p1 p4
    if 0 < den then (dist p2 p6 + dist p3 p5) / den else 0

/-- `eyesOpenScore`: threshold/taper map of the average EAR. -/
noncomputable def eyesOpenScore (lEAR rEAR : ℝ) : ℝ :=
  let avg := (lEAR + rEAR) / 2
  if avg ≤ 0.2 then 0
  else if 0.28 ≤ avg then 1
  else (avg - 0.2) / (0.28 - 0.2)

/-- One face detection as consumed by `computeFaceSignals`: detector
confidence and expression probability are optional (`?? 0` in the source). -/
structure FaceDetection where
  score : Option ℝ
  boxW : ℝ
  boxH : ℝ
  leftEye : List (ℝ × ℝ)
  rightEye : List (ℝ × ℝ)
  happy : Option ℝ

/-- The tie-breaking reducer picking the best detection: higher confidence
wins, ties broken by larger box area. -/
noncomputable def pickBest (a b : FaceDetection) : FaceDetection :=
  if a.score.getD 0 ≠ b.score.getD 0 then
    (if b.score.getD 0 < a.score.getD 0 then a else b)
  else (if b.boxW * b.boxH ≤ a.boxW * a.boxH then a else b)

/-- The numeric core of `computeFaceSignals`: detection disabled, models
unavailable, or no detection yield `(0, 0, 0)`; otherwise facePresence blends
confidence with the square root of the relative box area, eyesOpen tapers
the average EAR, and smiling is `happy ^ 0.8`, each clamped. -/
noncomputable def computeFaceSignals (skipFacialRecognition modelsLoaded : Bool)
    (tensorH tensorW : ℝ) (detections : List FaceDetection) : ℝ × ℝ × ℝ :=
  if skipFacialRecognition then (0, 0, 0)
  else if !modelsLoaded then (0, 0, 0)
  else
    match detections with
    | [] => (0, 0, 0)
    | d :: ds =>
      let picked := ds.foldl pickBest d
      let score := clamp01R (picked.score.getD 0)
      let areaRel := clamp01R ((picked.boxW * picked.boxH) / (tensorW * tensorH + 1e-6))
      let facePresence := clamp01R (0.8 * score + 0.2 * Real.sqrt areaRel)
      let eyesOpen := eyesOpenScore (ear picked.leftEye) (ear picked.rightEye)
      let smiling := clamp01R ((picked.happy.getD 0) ^ (0.8 : ℝ))
      (facePresence, eyesOpen, smiling)

/-- Membership in the unit interval, for stating the range invariants. -/
def In01 (x : ℝ) : Prop := 0 ≤ x ∧ x ≤ 1

/-! ### Invariants of the flood fill -/

/-- Number of photos whose path is not yet in the used set (the termination
measure of the flood fill, together with the queue length). -/
def countUnused (photos : List Image) (used : List String) : ℕ :=
  photos.countP (fun p => decide (¬ p.path ∈ used))

/-- Everything a successful inner scan does: it extends `used` by exactly the
paths of the newly linked photos `news` (all drawn from `others`, all linked
to `current`), pushes exactly `news` onto the frontier, preserves
distinctness of `used`, and leaves no linked photo unaccounted for. -/
lemma scanAux_spec (o : GroupConfig) (current : Image) :
    ∀ (others : List Image) (used : List String) (queue : List Image)
      (u' : List String) (q' : List Image),
    scanAux o current others used queue = some (u', q') →
    ∃ news : List Image,
      u' = news.map Image.path ++ used ∧
      q' = news ++ queue ∧
      (∀ x ∈ news, x ∈ others ∧ areLinked current x o = some true) ∧
      (used.Nodup → u'.Nodup) ∧
      (∀ p ∈ others, areLinked current p o = some true →
        p.path ∈ u' ∨ p.path = current.path) := by
  intro others
  induction others with
  | nil =>
    intro used queue u' q' h
    simp only [scanAux, Option.some.injEq, Prod.mk.injEq] at h
    exact ⟨[], by simp [← h.1], by simp [← h.2], by simp, fun hnd => h.1 ▸ hnd, by simp⟩
  | cons other rest ih =>
    intro used queue u' q' h
    simp only [scanAux] at h
    by_cases hskip : other.path ∈ used ∨ other.path = current.path
    · rw [if_pos hskip] at h
      obtain ⟨news, h1, h2, h3, h4, h5⟩ := ih used queue u' q' h
      refine ⟨news, h1, h2, fun x hx => ⟨List.mem_cons_of_mem _ (h3 x hx).1, (h3 x hx).2⟩,
        h4, ?_⟩
      intro p hp hlink
      rcases List.mem_cons.mp hp with rfl | hp
      · rcases hskip with hsk | hsk
        · exact Or.inl (h1 ▸ List.mem_append_right _ hsk)
        · exact Or.inr hsk
      · exact h5 p hp hlink
    · rw [if_neg hskip] at h
      push_neg at hskip
      obtain ⟨hnotused, hnotcur⟩ := hskip
      cases hlink : areLinked current other o with
      | none => rw [hlink] at h; exact absurd h (by simp)
      | some b =>
        rw [hlink] at h
        cases b with
        | true =>
          obtain ⟨news', h1, h2, h3, h4, h5⟩ := ih (other.path :: used) (other :: queue) u' q' h
          refine ⟨news' ++ [other], ?_, ?_, ?_, ?_, ?_⟩
          · rw [h1]; simp
          · rw [h2]; simp
          · intro x hx
            rcases List.mem_append.mp hx with hx | hx
            · exact ⟨List.mem_cons_of_mem _ (h3 x hx).1, (h3 x hx).2⟩
            · rw [List.mem_singleton.mp hx]
              exact ⟨List.mem_cons_self _ _, hlink⟩
          · intro hnd
            exact h4 (List.nodup_cons.mpr ⟨hnotused, hnd⟩)
          · intro p hp hl
            rcases List.mem_cons.mp hp with rfl | hp
            · exact Or.inl (h1 ▸ List.mem_append_right _ (List.mem_cons_self _ _))
            · exact h5 p hp hl
        | false =>
          obtain ⟨news, h1, h2, h3, h4, h5⟩ := ih used queue u' q' h
          refine ⟨news, h1, h2,
            fun x hx => ⟨List.mem_cons_of_mem _ (h3 x hx).1, (h3 x hx).2⟩, h4, ?_⟩
          intro p hp hl
          rcases List.mem_cons.mp hp with rfl | hp
          · rw [hlink] at hl
            exact absurd (Option.some.inj hl) (by simp)
          · exact h5 p hp hl

/-- Multiset accounting of the flood-fill loop: if at entry the used set
consists of the previously emitted paths `P`, the current group and the queue
(each path once), then at exit it consists of `P` and the final group. -/
lemma floodLoop_used (o : GroupConfig) (photos : List Image) :
    ∀ (fuel : ℕ) (queue : List Image) (used : List String) (group : List Image)
      (g' : List Image) (u' : List String),
    floodLoop o photos fuel queue used group = some (g', u') →
    ∀ P : Multiset String,
      (↑used : Multiset String)
        = P + ↑(group.map Image.path) + ↑(queue.map Image.path) →
      (↑u' : Multiset String) = P + ↑(g'.map Image.path) := by
  intro fuel
  induction fuel with
  | zero =>
    intro queue used group g' u' h P hP
    cases queue with
    | nil =>
      simp only [floodLoop, Option.some.injEq, Prod.mk.injEq] at h
      rw [← h.2, ← h.1, hP]
      simp
    | cons c q => simp [floodLoop] at h
  | succ fuel ih =>
    intro queue used group g' u' h P hP
    cases queue with
    | nil =>
      simp only [floodLoop, Option.some.injEq, Prod.mk.injEq] at h
      rw [← h.2, ← h.1, hP]
      simp
    | cons current queue =>
      simp only [floodLoop] at h
      cases hscan : scanAux o current photos used queue with
      | none => rw [hscan] at h; exact absurd h (by simp)
      | some res =>
        obtain ⟨used1, queue1⟩ := res
        rw [hscan] at h
        obtain ⟨news, hu1, hq1, -, -, -⟩ :=
          scanAux_spec o current photos used queue used1 queue1 hscan
        refine ih queue1 used1 (group ++ [current]) g' u' h P ?_
        subst hu1 hq1
        simp only [List.map_append, List.map_cons, List.map_nil, ← Multiset.coe_add,
          ← Multiset.cons_coe, Multiset.coe_nil] at hP ⊢
        rw [hP, ← Multiset.singleton_add, ← Multiset.singleton_add]
        abel

/-- Structural invariants of a successful flood-fill run: the used set only
grows, stays duplicate-free, the final group is drawn from the photo list,
and every member of the final group (beyond the initial accumulator) has all
its linked partners' paths in the final used set. -/
lemma floodLoop_spec (o : GroupConfig) (photos : List Image) :
    ∀ (fuel : ℕ) (queue : List Image) (used : List String) (group : List Image)
      (g' : List Image) (u' : List String),
    floodLoop o photos fuel queue used group = some (g', u') →
    (∀ x ∈ queue, x ∈ photos) →
    (∀ x ∈ queue, x.path ∈ used) →
    (∃ ext : List String, u' = ext ++ used) ∧
    (used.Nodup → u'.Nodup) ∧
    (∀ x ∈ g', x ∈ group ∨ x ∈ photos) ∧
    (∀ x ∈ g', x ∈ group ∨
      ∀ p ∈ photos, areLinked x p o = some true → p.path ∈ u') := by
  intro fuel
  induction fuel with
  | zero =>
    intro queue used group g' u' h hqmem hqused
    cases queue with
    | nil =>
      simp only [floodLoop, Option.some.injEq, Prod.mk.injEq] at h
      exact ⟨⟨[], by rw [← h.2]; simp⟩, fun hnd => h.2 ▸ hnd,
        fun x hx => Or.inl (h.1 ▸ hx), fun x hx => Or.inl (h.1 ▸ hx)⟩
    | cons c q => simp [floodLoop] at h
  | succ fuel ih =>
    intro queue used group g' u' h hqmem hqused
    cases queue with
    | nil =>
      simp only [floodLoop, Option.some.injEq, Prod.mk.injEq] at h
      exact ⟨⟨[], by rw [← h.2]; simp⟩, fun hnd => h.2 ▸ hnd,
        fun x hx => Or.inl (h.1 ▸ hx), fun x hx => Or.inl (h.1 ▸ hx)⟩
    | cons current queue =>
      simp only [floodLoop] at h
      cases hscan : scanAux o current photos used queue with
      | none => rw [hscan] at h; exact absurd h (by simp)
      | some res =>
        obtain ⟨used1, queue1⟩ := res
        rw [hscan] at h
        obtain ⟨news, hu1, hq1, hnews, hnd1, hclose⟩ :=
          scanAux_spec o current photos used queue used1 queue1 hscan
        have hqmem1 : ∀ x ∈ queue1, x ∈ photos := by
          intro x hx
          rw [hq1] at hx
          rcases List.mem_append.mp hx with hx | hx
          · exact (hnews x hx).1
          · exact hqmem x (List.mem_cons_of_mem _ hx)
        have hqused1 : ∀ x ∈ queue1, x.path ∈ used1 := by
          intro x hx
          rw [hq1] at hx
          rw [hu1]
          rcases List.mem_append.mp hx with hx | hx
          · exact List.mem_append_left _ (List.mem_map_of_mem _ hx)
          · exact List.mem_append_right _ (hqused x (List.mem_cons_of_mem _ hx))
        obtain ⟨⟨ext1, hext1⟩, hnd', hmem', hclose'⟩ :=
          ih queue1 used1 (group ++ [current]) g' u' h hqmem1 hqused1
        have hcurused : current.path ∈ used := hqused current (List.mem_cons_self _ _)
        have hsub1 : ∀ s ∈ used1, s ∈ u' := by
          intro s hs
          rw [hext1]
          exact List.mem_append_right _ hs
        refine ⟨⟨ext1 ++ news.map Image.path, by rw [hext1, hu1, List.append_assoc]⟩,
          fun hnd => hnd' (hnd1 hnd), ?_, ?_⟩
        · intro x hx
          rcases hmem' x hx with hx' | hx'
          · rcases List.mem_append.mp hx' with hx' | hx'
            · exact Or.inl hx'
            · rw [List.mem_singleton.mp hx']
              exact Or.inr (hqmem current (List.mem_cons_self _ _))
          · exact Or.inr hx'
        · intro x hx
          rcases hclose' x hx with hx' | hx'
          · rcases List.mem_append.mp hx' with hx' | hx'
            · exact Or.inl hx'
            · rw [List.mem_singleton.mp hx']
              refine Or.inr ?_
              intro p hp hlink
              rcases hclose p hp hlink with hc | hc
              · exact hsub1 _ hc
              · rw [hc]
                exact hsub1 _ (hu1 ▸ List.mem_append_right _ hcurused)
          · exact Or.inr hx'

lemma countUnused_le_length (photos : List Image) (used : List String) :
    countUnused photos used ≤ photos.length :=
  List.countP_le_length _

/-- Marking the path of an unused member of `photos` strictly shrinks the
unused count. -/
lemma countUnused_cons_lt (photos : List Image) (p : Image) (L : List String)
    (hp : p ∈ photos) (hnp : p.path ∉ L) :
    countUnused photos (p.path :: L) < countUnused photos L := by
  induction photos with
  | nil => simp at hp
  | cons q qs ih =>
    unfold countUnused at *
    rw [List.countP_cons, List.countP_cons]
    have htail : List.countP (fun r => decide (¬ r.path ∈ p.path :: L)) qs
        ≤ List.countP (fun r => decide (¬ r.path ∈ L)) qs := by
      apply List.countP_mono_left
      intro x _ hx
      simp only [decide_eq_true_eq] at hx ⊢
      intro hmem
      exact hx (List.mem_cons_of_mem _ hmem)
    rcases List.mem_cons.mp hp with rfl | hp'
    · have h1 : (decide (¬ p.path ∈ L)) = true := by simp [hnp]
      have h2 : (decide (¬ p.path ∈ p.path :: L)) = false := by simp
      rw [h1, h2]
      simp only [if_true]
      have : ¬ (false = true) := by simp
      rw [if_neg this]
      omega
    · have hlt := ih hp'
      have hhead : (if decide (¬ q.path ∈ p.path :: L) = true then 1 else 0)
          ≤ (if decide (¬ q.path ∈ L) = true then 1 else 0) := by
        have himp : (decide (¬ q.path ∈ p.path :: L)) = true →
            (decide (¬ q.path ∈ L)) = true := by
          simp only [decide_eq_true_eq]
          intro hnot hmem
          exact hnot (List.mem_cons_of_mem _ hmem)
        by_cases hc : (decide (¬ q.path ∈ p.path :: L)) = true
        · rw [if_pos hc, if_pos (himp hc)]
        · rw [if_neg hc]
          split <;> omega
      omega

/-- The scan's newly marked photos pay for themselves in the termination
measure. -/
lemma countUnused_news (photos : List Image) :
    ∀ (news : List Image) (used : List String),
    (∀ x ∈ news, x ∈ photos) →
    (news.map Image.path ++ used).Nodup →
    countUnused photos (news.map Image.path ++ used) + news.length
      ≤ countUnused photos used := by
  intro news
  induction news with
  | nil => intro used _ _; simp
  | cons n ns ih =>
    intro used hmem hnd
    simp only [List.map_cons, List.cons_append] at hnd ⊢
    have hn : n.path ∉ ns.map Image.path ++ used := (List.nodup_cons.mp hnd).1
    have hlt := countUnused_cons_lt photos n (ns.map Image.path ++ used)
      (hmem n (List.mem_cons_self _ _)) hn
    have hih := ih used (fun x hx => hmem x (List.mem_cons_of_mem _ hx))
      (List.nodup_cons.mp hnd).2
    simp only [List.length_cons]
    omega

/-- Under valid hashes the inner scan cannot throw. -/
lemma scanAux_total (o : GroupConfig) (current : Image) (hcur : HashOk current) :
    ∀ (others : List Image) (used : List String) (queue : List Image),
    (∀ x ∈ others, HashOk x) →
    (scanAux o current others used queue).isSome = true := by
  intro others
  induction others with
  | nil => intro used queue _; simp [scanAux]
  | cons other rest ih =>
    intro used queue hok
    simp only [scanAux]
    by_cases hskip : other.path ∈ used ∨ other.path = current.path
    · rw [if_pos hskip]
      exact ih used queue (fun x hx => hok x (List.mem_cons_of_mem _ hx))
    · rw [if_neg hskip]
      rw [areLinked_eq_specAmended current other o hcur (hok other (List.mem_cons_self _ _))]
      cases specLinkedAmendedB current other o with
      | true => exact ih _ _ (fun x hx => hok x (List.mem_cons_of_mem _ hx))
      | false => exact ih _ _ (fun x hx => hok x (List.mem_cons_of_mem _ hx))

/-- Fuel sufficiency: `queue.length + countUnused photos used` bounds the
number of iterations of the flood-fill loop, so with that much fuel (and
valid hashes) the loop cannot fail.  This is the termination argument for
the JS `while` loop. -/
lemma floodLoop_total (o : GroupConfig) (photos : List Image)
    (hok : ∀ p ∈ photos, HashOk p) :
    ∀ (fuel : ℕ) (queue : List Image) (used : List String) (group : List Image),
    (∀ x ∈ queue, x ∈ photos) →
    used.Nodup →
    queue.length + countUnused photos used ≤ fuel →
    (floodLoop o photos fuel queue used group).isSome = true := by
  intro fuel
  induction fuel with
  | zero =>
    intro queue used group hq hnd hfuel
    cases queue with
    | nil => simp [floodLoop]
    | cons c q => simp at hfuel
  | succ fuel ih =>
    intro queue used group hq hnd hfuel
    cases queue with
    | nil => simp [floodLoop]
    | cons current queue =>
      simp only [floodLoop]
      have hcur : HashOk current := hok current (hq current (List.mem_cons_self _ _))
      have hsome := scanAux_total o current hcur photos used queue hok
      obtain ⟨⟨used1, queue1⟩, hscan⟩ := Option.isSome_iff_exists.mp hsome
      rw [hscan]
      obtain ⟨news, hu1, hq1, hnews, hnd1, -⟩ :=
        scanAux_spec o current photos used queue used1 queue1 hscan
      have hndu1 : used1.Nodup := hnd1 hnd
      have hndu1' : (news.map Image.path ++ used).Nodup := hu1 ▸ hndu1
      have hmeas := countUnused_news photos news used (fun x hx => (hnews x hx).1) hndu1'
      apply ih queue1 used1 (group ++ [current])
      · intro x hx
        rw [hq1] at hx
        rcases List.mem_append.mp hx with hx | hx
        · exact (hnews x hx).1
        · exact hq x (List.mem_cons_of_mem _ hx)
      · exact hndu1
      · rw [hq1, hu1]
        simp only [List.length_append, List.length_cons] at *
        omega

/-- Under valid hashes the whole grouping run returns a result. -/
lemma groupLoop_total (o : GroupConfig) (photos : List Image)
    (hok : ∀ p ∈ photos, HashOk p) :
    ∀ (rest : List Image) (used : List String) (groups : List (List String)),
    (∀ x ∈ rest, x ∈ photos) → used.Nodup →
    (groupLoop o photos rest used groups).isSome = true := by
  intro rest
  induction rest with
  | nil => intro used groups _ _; simp [groupLoop]
  | cons seed rest ih =>
    intro used groups hrest hnd
    simp only [groupLoop]
    by_cases hs : seed.path ∈ used
    · rw [if_pos hs]
      exact ih used groups (fun x hx => hrest x (List.mem_cons_of_mem _ hx)) hnd
    · rw [if_neg hs]
      have hseed : seed ∈ photos := hrest seed (List.mem_cons_self _ _)
      have hndc : (seed.path :: used).Nodup := List.nodup_cons.mpr ⟨hs, hnd⟩
      have hq : ∀ x ∈ [seed], x ∈ photos := by
        intro x hx
        rw [List.mem_singleton.mp hx]
        exact hseed
      have hflood := floodLoop_total o photos hok (photos.length + 1) [seed]
        (seed.path :: used) [] hq hndc
        (by
          have := countUnused_le_length photos (seed.path :: used)
          simp only [List.length_singleton]
          omega)
      obtain ⟨⟨g, u'⟩, hfl⟩ := Option.isSome_iff_exists.mp hflood
      rw [hfl]
      have hqu : ∀ x ∈ [seed], x.path ∈ seed.path :: used := by
        intro x hx
        rw [List.mem_singleton.mp hx]
        exact List.mem_cons_self _ _
      obtain ⟨-, hndf, -, -⟩ :=
        floodLoop_spec o photos (photos.length + 1) [seed] (seed.path :: used) [] g u'
          hfl hq hqu
      exact ih u' (groups ++ [g.map Image.path])
        (fun x hx => hrest x (List.mem_cons_of_mem _ hx)) (hndf hndc)

/-- Main induction for the partition property: with the invariants that
`used` is exactly the paths of the emitted groups, is duplicate-free, is
drawn from the input paths, and that every unused photo is still pending,
the final groups' paths are a permutation of the input paths. -/
lemma groupLoop_partition (o : GroupConfig) (photos : List Image)
    (hndP : (photos.map Image.path).Nodup) :
    ∀ (rest : List Image) (used : List String) (groups : List (List String))
      (gs : List (List String)),
    groupLoop o photos rest used groups = some gs →
    (∀ x ∈ rest, x ∈ photos) →
    ((↑(groups.flatten) : Multiset String) = ↑used) →
    used.Nodup →
    (∀ s ∈ used, s ∈ photos.map Image.path) →
    (∀ p ∈ photos, p.path ∉ used → p ∈ rest) →
    List.Perm gs.flatten (photos.map Image.path) := by
  intro rest
  induction rest with
  | nil =>
    intro used groups gs h hrest hj hnd hsub hrem
    simp only [groupLoop, Option.some.injEq] at h
    subst h
    have hall : ∀ p ∈ photos, p.path ∈ used := by
      intro p hp
      by_contra hn
      exact absurd (hrem p hp hn) (List.not_mem_nil p)
    have hperm_used : used.Perm (photos.map Image.path) := by
      rw [List.perm_ext_iff_of_nodup hnd hndP]
      intro s
      constructor
      · exact hsub s
      · intro hs
        obtain ⟨p, hp, rfl⟩ := List.mem_map.mp hs
        exact hall p hp
    exact (Multiset.coe_eq_coe.mp hj).trans hperm_used
  | cons seed rest ih =>
    intro used groups gs h hrest hj hnd hsub hrem
    simp only [groupLoop] at h
    by_cases hs : seed.path ∈ used
    · rw [if_pos hs] at h
      refine ih used groups gs h (fun x hx => hrest x (List.mem_cons_of_mem _ hx))
        hj hnd hsub ?_
      intro p hp hn
      rcases List.mem_cons.mp (hrem p hp hn) with rfl | hp'
      · exact absurd hs hn
      · exact hp'
    · rw [if_neg hs] at h
      cases hfl : floodLoop o photos (photos.length + 1) [seed] (seed.path :: used) [] with
      | none => rw [hfl] at h; exact absurd h (by simp)
      | some gu =>
        obtain ⟨g, u'⟩ := gu
        rw [hfl] at h
        have hseed : seed ∈ photos := hrest seed (List.mem_cons_self _ _)
        have hql : ∀ x ∈ [seed], x ∈ photos := by
          intro x hx
          rw [List.mem_singleton.mp hx]
          exact hseed
        have hqu : ∀ x ∈ [seed], x.path ∈ seed.path :: used := by
          intro x hx
          rw [List.mem_singleton.mp hx]
          exact List.mem_cons_self _ _
        obtain ⟨⟨ext, hext⟩, hndf, hmemf, -⟩ :=
          floodLoop_spec o photos (photos.length + 1) [seed] (seed.path :: used) [] g u'
            hfl hql hqu
        have hu' := floodLoop_used o photos (photos.length + 1) [seed] (seed.path :: used)
          [] g u' hfl (↑used) (by
            simp only [List.map_nil, List.map_cons, Multiset.coe_nil,
              ← Multiset.cons_coe, ← Multiset.singleton_add]
            abel)
        have hndc : (seed.path :: used).Nodup := List.nodup_cons.mpr ⟨hs, hnd⟩
        refine ih u' (groups ++ [g.map Image.path]) gs h
          (fun x hx => hrest x (List.mem_cons_of_mem _ hx)) ?_ (hndf hndc) ?_ ?_
        · simp only [List.flatten_append, List.flatten_cons, List.flatten_nil, List.append_nil,
            ← Multiset.coe_add, hj, hu']
        · intro s hsm
          have : s ∈ (↑u' : Multiset String) := hsm
          rw [hu'] at this
          rcases Multiset.mem_add.mp this with hsm' | hsm'
          · exact hsub s hsm'
          · obtain ⟨x, hx, rfl⟩ := List.mem_map.mp (Multiset.mem_coe.mp hsm')
            rcases hmemf x hx with hx' | hx'
            · exact absurd hx' (List.not_mem_nil x)
            · exact List.mem_map_of_mem _ hx'
        · intro p hp hn
          have hn1 : p.path ∉ used := by
            intro hmem
            apply hn
            rw [hext]
            exact List.mem_append_right _ (List.mem_cons_of_mem _ hmem)
          have hn2 : p.path ≠ seed.path := by
            intro heq
            apply hn
            rw [hext, heq]
            exact List.mem_append_right _ (List.mem_cons_self _ _)
          rcases List.mem_cons.mp (hrem p hp hn1) with rfl | hp'
          · exact absurd rfl hn2
          · exact hp'

/-- Two photos with the same path are the same record when input paths are
pairwise distinct. -/
lemma path_inj {photos : List Image} (hndP : (photos.map Image.path).Nodup)
    {x y : Image} (hx : x ∈ photos) (hy : y ∈ photos) (h : x.path = y.path) :
    x = y :=
  List.inj_on_of_nodup_map hndP hx hy h

/-- Closure of the emitted groups: every member of the `i`-th group has all
its linked partners' paths inside the first `i + 1` groups (a partner is
either absorbed into the same flood fill or was already used by an earlier
one). -/
lemma groupLoop_closure (o : GroupConfig) (photos : List Image)
    (hndP : (photos.map Image.path).Nodup) :
    ∀ (rest : List Image) (used : List String) (groups : List (List String))
      (gs : List (List String)),
    groupLoop o photos rest used groups = some gs →
    (∀ x ∈ rest, x ∈ photos) →
    ((↑(groups.flatten) : Multiset String) = ↑used) →
    (∀ i (hi : i < groups.length), ∀ x ∈ photos,
      x.path ∈ groups.get ⟨i, hi⟩ → ∀ p ∈ photos,
      areLinked x p o = some true → p.path ∈ (groups.take (i + 1)).flatten) →
    ∀ i (hi : i < gs.length), ∀ x ∈ photos, x.path ∈ gs.get ⟨i, hi⟩ →
      ∀ p ∈ photos, areLinked x p o = some true → p.path ∈ (gs.take (i + 1)).flatten := by
  intro rest
  induction rest with
  | nil =>
    intro used groups gs h _ _ hcl
    simp only [groupLoop, Option.some.injEq] at h
    subst h
    exact hcl
  | cons seed rest ih =>
    intro used groups gs h hrest hj hcl
    simp only [groupLoop] at h
    by_cases hs : seed.path ∈ used
    · rw [if_pos hs] at h
      exact ih used groups gs h (fun x hx => hrest x (List.mem_cons_of_mem _ hx)) hj hcl
    · rw [if_neg hs] at h
      cases hfl : floodLoop o photos (photos.length + 1) [seed] (seed.path :: used) [] with
      | none => rw [hfl] at h; exact absurd h (by simp)
      | some gu =>
        obtain ⟨g, u'⟩ := gu
        rw [hfl] at h
        have hseed : seed ∈ photos := hrest seed (List.mem_cons_self _ _)
        have hql : ∀ x ∈ [seed], x ∈ photos := by
          intro x hx
          rw [List.mem_singleton.mp hx]
          exact hseed
        have hqu : ∀ x ∈ [seed], x.path ∈ seed.path :: used := by
          intro x hx
          rw [List.mem_singleton.mp hx]
          exact List.mem_cons_self _ _
        obtain ⟨-, -, hmemf, hclosef⟩ :=
          floodLoop_spec o photos (photos.length + 1) [seed] (seed.path :: used) [] g u'
            hfl hql hqu
        have hu' := floodLoop_used o photos (photos.length + 1) [seed] (seed.path :: used)
          [] g u' hfl (↑used) (by
            simp only [List.map_nil, List.map_cons, Multiset.coe_nil,
              ← Multiset.cons_coe, ← Multiset.singleton_add]
            abel)
        refine ih u' (groups ++ [g.map Image.path]) gs h
          (fun x hx => hrest x (List.mem_cons_of_mem _ hx)) ?_ ?_
        · simp only [List.flatten_append, List.flatten_cons, List.flatten_nil, List.append_nil,
            ← Multiset.coe_add, hj, hu']
        · intro i hi x hx hxg p hp hlink
          rw [List.length_append, List.length_singleton] at hi
          by_cases hilt : i < groups.length
          · have hgeti : (groups ++ [g.map Image.path]).get ⟨i, by
                rw [List.length_append, List.length_singleton]; omega⟩
                = groups.get ⟨i, hilt⟩ := by
              rw [List.get_append_left]
            have htake : (groups ++ [g.map Image.path]).take (i + 1) = groups.take (i + 1) :=
              List.take_append_of_le_length (by omega)
            rw [hgeti] at hxg
            rw [htake]
            exact hcl i hilt x hx hxg p hp hlink
          · have hieq : i = groups.length := by omega
            subst hieq
            have hgeti : (groups ++ [g.map Image.path]).get ⟨groups.length, by
                rw [List.length_append, List.length_singleton]; omega⟩
                = g.map Image.path := by
              simp
            rw [hgeti] at hxg
            have htake : (groups ++ [g.map Image.path]).take (groups.length + 1)
                = groups ++ [g.map Image.path] := by
              apply List.take_of_length_le
              rw [List.length_append, List.length_singleton]
            rw [htake]
            obtain ⟨y, hyg, hyp⟩ := List.mem_map.mp hxg
            have hyphotos : y ∈ photos := by
              rcases hmemf y hyg with hc | hc
              · exact absurd hc (List.not_mem_nil y)
              · exact hc
            have hyx : y = x := path_inj hndP hyphotos hx hyp
            subst hyx
            rcases hclosef y hyg with hc | hc
            · exact absurd hc (List.not_mem_nil y)
            · have hpu : p.path ∈ (↑u' : Multiset String) := hc p hp hlink
              rw [hu'] at hpu
              rw [List.flatten_append, List.flatten_cons, List.flatten_nil, List.append_nil]
              rcases Multiset.mem_add.mp hpu with hc' | hc'
              · apply List.mem_append_left
                have : p.path ∈ (↑(groups.flatten) : Multiset String) := hj ▸ hc'
                exact Multiset.mem_coe.mp this
              · exact List.mem_append_right _ (Multiset.mem_coe.mp hc')

/-- Two records with the same non-empty, hex-parseable hash are always
linked: their hash similarity is exactly 1. -/
lemma linked_of_same_hash (a b : Image) (o : GroupConfig) (hsh : String)
    (ha : a.hash = some hsh) (hb : b.hash = some hsh) (hne : hsh ≠ "")
    (hval : (hexVal? hsh).isSome = true) (ht : o.phashThreshold ≤ 1) :
    areLinked a b o = some true := by
  obtain ⟨A, hA⟩ := Option.isSome_iff_exists.mp hval
  have hps : phashSimilarity hsh hsh = some 1 := by
    unfold phashSimilarity
    rw [hA]
    norm_num [Nat.xor_self, bitsOfFuel]
  simp [areLinked, ha, hb, hne, hps, decide_eq_true ht]

/-- A scan in which every candidate is already used, shares the current
photo's path, or is unlinked, changes nothing. -/
lemma scanAux_no_accept (o : GroupConfig) (current : Image) :
    ∀ (others : List Image) (used : List String) (queue : List Image),
    (∀ q ∈ others, q.path ∈ used ∨ q.path = current.path ∨
      areLinked current q o = some false) →
    scanAux o current others used queue = some (used, queue) := by
  intro others
  induction others with
  | nil => intro used queue _; rfl
  | cons other rest ih =>
    intro used queue hcond
    simp only [scanAux]
    by_cases hskip : other.path ∈ used ∨ other.path = current.path
    · rw [if_pos hskip]
      exact ih used queue (fun q hq => hcond q (List.mem_cons_of_mem _ hq))
    · rw [if_neg hskip]
      push_neg at hskip
      rcases hcond other (List.mem_cons_self _ _) with hc | hc | hc
      · exact absurd hc hskip.1
      · exact absurd hc hskip.2
      · rw [hc]
        exact ih used queue (fun q hq => hcond q (List.mem_cons_of_mem _ hq))

/-- A photo that no other photo links to is never absorbed by someone
else's flood fill. -/
lemma floodLoop_no_capture (o : GroupConfig) (photos : List Image) (p : Image)
    (hp : p ∈ photos) (hndP : (photos.map Image.path).Nodup)
    (hnolink : ∀ q ∈ photos, q.path ≠ p.path → areLinked q p o = some false) :
    ∀ (fuel : ℕ) (queue : List Image) (used : List String) (group : List Image)
      (g' : List Image) (u' : List String),
    floodLoop o photos fuel queue used group = some (g', u') →
    (∀ x ∈ queue, x ∈ photos) →
    (∀ x ∈ queue, x.path ∈ used) →
    p.path ∉ used → p.path ∉ u' := by
  intro fuel
  induction fuel with
  | zero =>
    intro queue used group g' u' h hq hqu hnp
    cases queue with
    | nil =>
      simp only [floodLoop, Option.some.injEq, Prod.mk.injEq] at h
      exact h.2 ▸ hnp
    | cons c q => simp [floodLoop] at h
  | succ fuel ih =>
    intro queue used group g' u' h hq hqu hnp
    cases queue with
    | nil =>
      simp only [floodLoop, Option.some.injEq, Prod.mk.injEq] at h
      exact h.2 ▸ hnp
    | cons current queue =>
      simp only [floodLoop] at h
      cases hscan : scanAux o current photos used queue with
      | none => rw [hscan] at h; exact absurd h (by simp)
      | some res =>
        obtain ⟨used1, queue1⟩ := res
        rw [hscan] at h
        obtain ⟨news, hu1, hq1, hnews, -, -⟩ :=
          scanAux_spec o current photos used queue used1 queue1 hscan
        have hcur : current ∈ photos := hq current (List.mem_cons_self _ _)
        have hcurpath : current.path ≠ p.path := by
          intro heq
          exact hnp (heq ▸ hqu current (List.mem_cons_self _ _))
        have hnp1 : p.path ∉ used1 := by
          rw [hu1]
          intro hmem
          rcases List.mem_append.mp hmem with hmem | hmem
          · obtain ⟨x, hx, hxp⟩ := List.mem_map.mp hmem
            have hxphotos : x ∈ photos := (hnews x hx).1
            have hxeq : x = p := path_inj hndP hxphotos hp hxp
            have := (hnews x hx).2
            rw [hxeq] at this
            rw [hnolink current hcur hcurpath] at this
            exact absurd (Option.some.inj this) (by simp)
          · exact hnp hmem
        refine ih queue1 used1 (group ++ [current]) g' u' h ?_ ?_ hnp1
        · intro x hx
          rw [hq1] at hx
          rcases List.mem_append.mp hx with hx | hx
          · exact (hnews x hx).1
          · exact hq x (List.mem_cons_of_mem _ hx)
        · intro x hx
          rw [hq1] at hx
          rw [hu1]
          rcases List.mem_append.mp hx with hx | hx
          · exact List.mem_append_left _ (List.mem_map_of_mem _ hx)
          · exact List.mem_append_right _ (hqu x (List.mem_cons_of_mem _ hx))

/-- Main induction for singleton emission: a photo linked to and from no
other photo either is still pending and unmarked, or has already been
emitted as the singleton group `[p.path]`; at the end it is in the output. -/
lemma groupLoop_singleton (o : GroupConfig) (photos : List Image) (p : Image)
    (hp : p ∈ photos) (hndP : (photos.map Image.path).Nodup)
    (hfrom : ∀ q ∈ photos, q ≠ p → areLinked p q o = some false)
    (hto : ∀ q ∈ photos, q ≠ p → areLinked q p o = some false) :
    ∀ (rest : List Image) (used : List String) (groups gs : List (List String)),
    groupLoop o photos rest used groups = some gs →
    (∀ x ∈ rest, x ∈ photos) →
    ((p ∈ rest ∧ p.path ∉ used) ∨ [p.path] ∈ groups) →
    [p.path] ∈ gs := by
  have hto' : ∀ q ∈ photos, q.path ≠ p.path → areLinked q p o = some false := by
    intro q hq hqp
    exact hto q hq (fun hc => hqp (hc ▸ rfl))
  intro rest
  induction rest with
  | nil =>
    intro used groups gs h _ hstate
    simp only [groupLoop, Option.some.injEq] at h
    rcases hstate with ⟨hmem, -⟩ | hdone
    · exact absurd hmem (List.not_mem_nil p)
    · exact h ▸ hdone
  | cons seed rest ih =>
    intro used groups gs h hrest hstate
    simp only [groupLoop] at h
    by_cases hs : seed.path ∈ used
    · rw [if_pos hs] at h
      refine ih used groups gs h (fun x hx => hrest x (List.mem_cons_of_mem _ hx)) ?_
      rcases hstate with ⟨hmem, hnp⟩ | hdone
      · refine Or.inl ⟨?_, hnp⟩
        rcases List.mem_cons.mp hmem with rfl | hmem'
        · exact absurd hs hnp
        · exact hmem'
      · exact Or.inr hdone
    · rw [if_neg hs] at h
      have hseed : seed ∈ photos := hrest seed (List.mem_cons_self _ _)
      rcases hstate with ⟨hmem, hnp⟩ | hdone
      · by_cases hsp : seed = p
        · subst hsp
          have hfl : floodLoop o photos (photos.length + 1) [seed]
              (seed.path :: used) [] = some ([seed], seed.path :: used) := by
            have hscan : scanAux o seed photos (seed.path :: used) []
                = some (seed.path :: used, []) := by
              apply scanAux_no_accept
              intro q hq
              by_cases hqp : q.path = seed.path
              · exact Or.inr (Or.inl hqp)
              · refine Or.inr (Or.inr ?_)
                refine hfrom q hq ?_
                intro hc
                exact hqp (hc ▸ rfl)
            show floodLoop o photos (photos.length + 1) [seed] (seed.path :: used) []
              = some ([seed], seed.path :: used)
            simp only [floodLoop, hscan, List.nil_append]
          rw [hfl] at h
          refine ih (seed.path :: used) (groups ++ [[seed].map Image.path]) gs h
            (fun x hx => hrest x (List.mem_cons_of_mem _ hx)) ?_
          refine Or.inr ?_
          simp
        · cases hfl : floodLoop o photos (photos.length + 1) [seed]
              (seed.path :: used) [] with
          | none => rw [hfl] at h; exact absurd h (by simp)
          | some gu =>
            obtain ⟨g, u'⟩ := gu
            rw [hfl] at h
            have hql : ∀ x ∈ [seed], x ∈ photos := by
              intro x hx
              rw [List.mem_singleton.mp hx]
              exact hseed
            have hqu : ∀ x ∈ [seed], x.path ∈ seed.path :: used := by
              intro x hx
              rw [List.mem_singleton.mp hx]
              exact List.mem_cons_self _ _
            have hppath : p.path ≠ seed.path := by
              intro heq
              exact hsp (path_inj hndP hseed hp heq.symm)
            have hnp1 : p.path ∉ seed.path :: used := by
              intro hmem'
              rcases List.mem_cons.mp hmem' with heq | hmem'
              · exact hppath heq
              · exact hnp hmem'
            have hnpu' := floodLoop_no_capture o photos p hp hndP hto'
              (photos.length + 1) [seed] (seed.path :: used) [] g u' hfl hql hqu hnp1
            refine ih u' (groups ++ [g.map Image.path]) gs h
              (fun x hx => hrest x (List.mem_cons_of_mem _ hx)) ?_
            refine Or.inl ⟨?_, hnpu'⟩
            rcases List.mem_cons.mp hmem with rfl | hmem'
            · exact absurd rfl hsp
            · exact hmem'
      · cases hfl : floodLoop o photos (photos.length + 1) [seed]
            (seed.path :: used) [] with
        | none => rw [hfl] at h; exact absurd h (by simp)
        | some gu =>
          obtain ⟨g, u'⟩ := gu
          rw [hfl] at h
          exact ih u' (groups ++ [g.map Image.path]) gs h
            (fun x hx => hrest x (List.mem_cons_of_mem _ hx))
            (Or.inr (List.mem_append_left _ hdone))

/-! ### Helper lemmas for the scorer -/

lemma clamp01_mono {x y : ℚ} (h : x ≤ y) : clamp01 x ≤ clamp01 y :=
  max_le_max le_rfl (min_le_min le_rfl h)

lemma clamp01_nonneg (x : ℚ) : 0 ≤ clamp01 x := le_max_left 0 _

lemma clamp01_le_one (x : ℚ) : clamp01 x ≤ 1 :=
  max_le zero_le_one (min_le_left 1 x)

lemma In01_clamp01R (x : ℝ) : In01 (clamp01R x) :=
  ⟨le_max_left 0 _, max_le zero_le_one (min_le_left 1 x)⟩

lemma In01_zero : In01 0 := ⟨le_rfl, zero_le_one⟩

lemma In01_one : In01 1 := ⟨zero_le_one, le_rfl⟩

lemma In01_eyesOpenScore (l r : ℝ) : In01 (eyesOpenScore l r) := by
  simp only [eyesOpenScore]
  split_ifs with h1 h2
  · exact In01_zero
  · exact In01_one
  · push_neg at h1 h2
    constructor
    · apply div_nonneg (by linarith) (by norm_num)
    · rw [div_le_one (by norm_num)]
      linarith

/-- Pointwise-dominated breakdowns have ordered composite scores. -/
lemma weightedSum_le_weightedSum {b b' : ScoreBreakdown}
    (h1 : b.brightness ≤ b'.brightness) (h2 : b.contrast ≤ b'.contrast)
    (h3 : b.sharpness ≤ b'.sharpness) (h4 : b.facePresence ≤ b'.facePresence)
    (h5 : b.eyesOpen ≤ b'.eyesOpen) (h6 : b.smiling ≤ b'.smiling) :
    weightedSum b ≤ weightedSum b' := by
  unfold weightedSum WEIGHTS
  apply clamp01_mono
  simp only
  gcongr

/-- Loop invariant for the `reviewGroupBun` recommendation scan: if `best` is
attained at `rec` within the processed prefix, is an upper bound of the
prefix, and beats every earlier prefix entry strictly, the final result is
the first argmax of the whole list. -/
lemma recAux_spec : ∀ (rest pre : List ℚ) (rec : ℕ) (best : ℚ)
    (hrec : rec < pre.length), pre.get ⟨rec, hrec⟩ = best →
    (∀ x ∈ pre, x ≤ best) →
    (∀ j, (hj : j < rec) → pre.get ⟨j, lt_trans hj hrec⟩ < best) →
    IsFirstArgmax (pre ++ rest) (recAux rest pre.length rec best) := by
  intro rest
  induction rest with
  | nil =>
    intro pre rec best hrec hbest hmax hfirst
    simp only [recAux, List.append_nil]
    exact ⟨hrec, fun x hx => hbest ▸ hmax x hx,
      fun j hj => by rw [hbest]; exact hfirst j hj⟩
  | cons v rest' ih =>
    intro pre rec best hrec hbest hmax hfirst
    simp only [recAux]
    have hassoc : pre ++ v :: rest' = (pre ++ [v]) ++ rest' := by simp
    have hlen : pre.length + 1 = (pre ++ [v]).length := by simp
    by_cases hv : best < v
    · rw [if_pos hv, hassoc]
      have hrec' : pre.length < (pre ++ [v]).length := by simp
      have hbest' : (pre ++ [v]).get ⟨pre.length, hrec'⟩ = v := by
        simp
      have hmax' : ∀ x ∈ pre ++ [v], x ≤ v := by
        intro x hx
        rcases List.mem_append.mp hx with hx | hx
        · exact le_of_lt (lt_of_le_of_lt (hmax x hx) hv)
        · rw [List.mem_singleton.mp hx]
      have hfirst' : ∀ j, (hj : j < pre.length) →
          (pre ++ [v]).get ⟨j, lt_trans hj hrec'⟩ < v := by
        intro j hj
        have hje : (pre ++ [v]).get ⟨j, lt_trans hj hrec'⟩ = pre.get ⟨j, hj⟩ := by
          rw [List.get_append_left]
        rw [hje]
        exact lt_of_le_of_lt (hmax _ (List.get_mem pre j hj)) hv
      have := ih (pre ++ [v]) pre.length v hrec' hbest' hmax' hfirst'
      rw [hlen]
      exact this
    · rw [if_neg hv, hassoc]
      have hvle : v ≤ best := not_lt.mp hv
      have hrec' : rec < (pre ++ [v]).length := by
        simp only [List.length_append, List.length_singleton]
        omega
      have hbest' : (pre ++ [v]).get ⟨rec, hrec'⟩ = best := by
        rw [List.get_append_left]
        exact hbest
      have hmax' : ∀ x ∈ pre ++ [v], x ≤ best := by
        intro x hx
        rcases List.mem_append.mp hx with hx | hx
        · exact hmax x hx
        · rw [List.mem_singleton.mp hx]
          exact hvle
      have hfirst' : ∀ j, (hj : j < rec) →
          (pre ++ [v]).get ⟨j, lt_trans hj hrec'⟩ < best := by
        intro j hj
        have hje : (pre ++ [v]).get ⟨j, lt_trans hj hrec'⟩
            = pre.get ⟨j, lt_trans hj hrec⟩ := by
          rw [List.get_append_left]
        rw [hje]
        exact hfirst j hj
      have := ih (pre ++ [v]) rec best hrec' hbest' hmax' hfirst'
      rw [hlen]
      exact this

/-! ### Claim theorems

The Batteries rational arithmetic operations are `@[irreducible]`, which
blocks `decide`'s evaluator; they are restored to their normal reducibility
here so concrete runs of the embedded functions can be evaluated. -/

set_option allowUnsafeReducibility true

attribute [local semireducible] Rat.ofScientific Rat.mul Rat.add Rat.sub Rat.div Rat.inv Rat.neg

/-- C1, counterexample: the claimed three-signal characterization of
`areLinked` is false as stated.  A record with capture time `0` (a JS-falsy
number) is treated as "timestamp missing" by the code's cosine time window,
so two cosine-similar photos whose timestamps are `0` and `10^12` ms (far
beyond `cosineMaxMinutes`) are linked by the code, while the claim's signal 3
requires `|timeA - timeB| ≤ cosineMaxMinutes * 60000` when both timestamps
are present, and signals 1 and 2 do not fire either. -/
theorem C1_counterexample :
    areLinked ⟨"a", none, some 0, [1]⟩ ⟨"b", none, some 1000000000000, [1]⟩
      ⟨85/100, 10, 8/10, 1440⟩ = some true
    ∧ specLinkedB ⟨"a", none, some 0, [1]⟩ ⟨"b", none, some 1000000000000, [1]⟩
      ⟨85/100, 10, 8/10, 1440⟩ = false := by
  decide

/-- C1, amended: provided both records' non-empty hash strings are valid hex
(otherwise `areLinked` throws), `areLinked` returns `true` iff signal 1 or
signal 2 fires as claimed, or signal 3 fires with its time window amended to
the code's truthiness semantics: a timestamp that is absent *or equal to 0*
counts as "missing" (within the window by default). -/
theorem C1_amended (a b : Image) (o : GroupConfig) (hA : HashOk a) (hB : HashOk b) :
    areLinked a b o = some true ↔ specLinkedAmendedB a b o = true := by
  rw [areLinked_eq_specAmended a b o hA hB]
  simp

/-- Witness for `C1_amended` at concrete records. -/
theorem C1_witness :
    HashOk ⟨"a", some "ff", some 5, [1]⟩ ∧ HashOk ⟨"b", some "ff", some 2000, [1]⟩
    ∧ (areLinked ⟨"a", some "ff", some 5, [1]⟩ ⟨"b", some "ff", some 2000, [1]⟩
        ⟨85/100, 10, 8/10, 1440⟩ = some true
      ↔ specLinkedAmendedB ⟨"a", some "ff", some 5, [1]⟩ ⟨"b", some "ff", some 2000, [1]⟩
        ⟨85/100, 10, 8/10, 1440⟩ = true) :=
  ⟨by decide, by decide,
    C1_amended ⟨"a", some "ff", some 5, [1]⟩ ⟨"b", some "ff", some 2000, [1]⟩
      ⟨85/100, 10, 8/10, 1440⟩ (by decide) (by decide)⟩

/-- C3: the spec requires `cosineSimilarity` to return exactly `0` when
either vector has zero L2 norm, but the code (src/group/clip.ts lines 52-57)
has no such guard: on `a = [0], b = [0]` (and on empty vectors) it computes
`0 / (0 * 0)`, which is `NaN` in JavaScript, never `0`.  The code contradicts
the spec's explicit "must not divide by zero — treat as similarity 0". -/
theorem C3_cosineSimilarity_nan :
    cosineSimilarity [0] [0] = JSNum.nan ∧ cosineSimilarity [] [] = JSNum.nan := by
  constructor
  · exact cosineSimilarity_nan_of_degenerate (Or.inl (by decide))
  · exact cosineSimilarity_nan_of_degenerate (Or.inl rfl)

/-- C4, counterexample: `areLinked` is not symmetric for all pairs.  With
embedding vectors of different lengths, `cosineSimilarity([1], [1, 0]) = 1`
but `cosineSimilarity([1, 0], [1])` indexes past the end of `[1]`
(`b[i]!` is `undefined`), yielding `NaN`, so only one direction links. -/
theorem C4_counterexample :
    areLinked ⟨"a", none, none, [1]⟩ ⟨"b", none, none, [1, 0]⟩ ⟨85/100, 10, 8/10, 1440⟩
      = some true
    ∧ areLinked ⟨"b", none, none, [1, 0]⟩ ⟨"a", none, none, [1]⟩ ⟨85/100, 10, 8/10, 1440⟩
      = some false := by
  decide

/-- C4, amended: `areLinked` is symmetric for every pair of records whose
embedding vectors have equal length (in particular for all records produced
by the pipeline, whose embeddings are all empty or all 512-dimensional). -/
theorem C4_amended (a b : Image) (o : GroupConfig)
    (h : a.clip.length = b.clip.length) : areLinked a b o = areLinked b a o :=
  areLinked_symm a b o h

/-- Witness for `C4_amended` at concrete records. -/
theorem C4_witness :
    (⟨"a", some "ff", some 5, [1, 2]⟩ : Image).clip.length
      = (⟨"b", none, none, [2, 1]⟩ : Image).clip.length
    ∧ areLinked ⟨"a", some "ff", some 5, [1, 2]⟩ ⟨"b", none, none, [2, 1]⟩
        ⟨85/100, 10, 8/10, 1440⟩
      = areLinked ⟨"b", none, none, [2, 1]⟩ ⟨"a", some "ff", some 5, [1, 2]⟩
        ⟨85/100, 10, 8/10, 1440⟩ :=
  ⟨rfl, C4_amended ⟨"a", some "ff", some 5, [1, 2]⟩ ⟨"b", none, none, [2, 1]⟩
    ⟨85/100, 10, 8/10, 1440⟩ rfl⟩

/-- C6: increasing any single sub-score while holding the other five fixed
never decreases the composite score, under the default non-negative
weights. -/
theorem C6_weightedSum_monotone (f : ScoreField) (b b' : ScoreBreakdown)
    (hother : ∀ g, g ≠ f → getField g b' = getField g b)
    (hf : getField f b ≤ getField f b') :
    weightedSum b ≤ weightedSum b' := by
  cases f <;>
    [skip; skip; skip; skip; skip; skip] <;>
    · apply weightedSum_le_weightedSum <;>
        first
          | exact hf
          | exact le_of_eq (hother ScoreField.brightness (by simp)).symm
          | exact le_of_eq (hother ScoreField.contrast (by simp)).symm
          | exact le_of_eq (hother ScoreField.sharpness (by simp)).symm
          | exact le_of_eq (hother ScoreField.facePresence (by simp)).symm
          | exact le_of_eq (hother ScoreField.eyesOpen (by simp)).symm
          | exact le_of_eq (hother ScoreField.smiling (by simp)).symm

/-- Witness for `C6_weightedSum_monotone`: raising only `smiling`. -/
theorem C6_witness :
    (∀ g, g ≠ ScoreField.smiling →
      getField g ⟨1/2, 1/2, 1/2, 1/2, 1/2, 9/10⟩ = getField g ⟨1/2, 1/2, 1/2, 1/2, 1/2, 1/10⟩)
    ∧ getField ScoreField.smiling ⟨1/2, 1/2, 1/2, 1/2, 1/2, 1/10⟩
        ≤ getField ScoreField.smiling ⟨1/2, 1/2, 1/2, 1/2, 1/2, 9/10⟩
    ∧ weightedSum ⟨1/2, 1/2, 1/2, 1/2, 1/2, 1/10⟩ ≤ weightedSum ⟨1/2, 1/2, 1/2, 1/2, 1/2, 9/10⟩ :=
  ⟨by decide, by decide,
    C6_weightedSum_monotone ScoreField.smiling _ _ (by decide) (by decide)⟩

/-- C7, counterexample: `reviewGroupBun` initializes `best` to `0`, so for
the score list `[-1, 0]` it recommends index `0`, although the maximum score
`0` first occurs at index `1`. -/
theorem C7_counterexample :
    recommendedIndexOf [-1, 0] = 0 ∧ ¬ IsFirstArgmax [-1, 0] 0 := by
  constructor
  · decide
  · rintro ⟨h, hmax, -⟩
    have h0 : (0 : ℚ) ∈ [(-1 : ℚ), 0] := by simp
    have hle := hmax 0 h0
    have : ([(-1 : ℚ), 0].get ⟨0, h⟩) = -1 := rfl
    rw [this] at hle
    norm_num at hle

/-- C7, amended: for a non-empty score list whose entries are all
non-negative (as composite scores are), the recommended index is the first
index attaining the maximum score. -/
theorem C7_recommended_first_argmax (scores : List ℚ) (hne : scores ≠ [])
    (hnn : ∀ x ∈ scores, 0 ≤ x) :
    IsFirstArgmax scores (recommendedIndexOf scores) := by
  cases scores with
  | nil => exact absurd rfl hne
  | cons v rest =>
    unfold recommendedIndexOf
    simp only [recAux]
    by_cases hv : (0 : ℚ) < v
    · rw [if_pos hv]
      have hspec := recAux_spec rest [v] 0 v (by simp) (by simp)
        (by intro x hx; rw [List.mem_singleton.mp hx])
        (by intro j hj; omega)
      simpa using hspec
    · rw [if_neg hv]
      have hv0 : v = 0 := le_antisymm (not_lt.mp hv) (hnn v (by simp))
      have hspec := recAux_spec rest [v] 0 0 (by simp) (by simp [hv0])
        (by intro x hx; rw [List.mem_singleton.mp hx, hv0])
        (by intro j hj; omega)
      simpa using hspec

/-- Witness for `C7_recommended_first_argmax` on a list with a tie. -/
theorem C7_witness :
    ([(1 : ℚ)/2, 7/10, 7/10] ≠ [])
    ∧ (∀ x ∈ [(1 : ℚ)/2, 7/10, 7/10], 0 ≤ x)
    ∧ IsFirstArgmax [(1 : ℚ)/2, 7/10, 7/10] (recommendedIndexOf [(1 : ℚ)/2, 7/10, 7/10]) :=
  ⟨by decide, by decide,
    C7_recommended_first_argmax [(1 : ℚ)/2, 7/10, 7/10] (by decide) (by decide)⟩

/-- C10: every sub-score the scorer derives — brightness, contrast,
sharpness, facePresence, eyesOpen, smiling, including the decode-failure and
no-face branches — lies in `[0,1]`, and the composite `weightedSum` of any
breakdown lies in `[0,1]`. -/
theorem C10_score_bounds (metaW metaH channels : ℕ) (data : List (ℝ × ℝ × ℝ))
    (mW mH w h : ℕ) (gdata : List ℝ)
    (skip models : Bool) (tH tW : ℝ) (dets : List FaceDetection)
    (b : ScoreBreakdown) :
    In01 (computeBrightnessContrast metaW metaH channels data).1
    ∧ In01 (computeBrightnessContrast metaW metaH channels data).2
    ∧ In01 (computeSharpness mW mH w h gdata)
    ∧ In01 (computeFaceSignals skip models tH tW dets).1
    ∧ In01 (computeFaceSignals skip models tH tW dets).2.1
    ∧ In01 (computeFaceSignals skip models tH tW dets).2.2
    ∧ 0 ≤ weightedSum b ∧ weightedSum b ≤ 1 := by
  refine ⟨?_, ?_, ?_, ?_, ?_, ?_, clamp01_nonneg _, clamp01_le_one _⟩
  · simp only [computeBrightnessContrast]
    split_ifs <;> first | exact In01_zero | exact In01_clamp01R _
  · simp only [computeBrightnessContrast]
    split_ifs <;> first | exact In01_zero | exact In01_clamp01R _
  · simp only [computeSharpness]
    split_ifs <;> first | exact In01_zero | exact In01_clamp01R _
  · simp only [computeFaceSignals]
    split_ifs
    · exact In01_zero
    · exact In01_zero
    · cases dets <;> first | exact In01_zero | exact In01_clamp01R _
  · simp only [computeFaceSignals]
    split_ifs
    · exact In01_zero
    · exact In01_zero
    · cases dets <;> first | exact In01_zero | exact In01_eyesOpenScore _ _
  · simp only [computeFaceSignals]
    split_ifs
    · exact In01_zero
    · exact In01_zero
    · cases dets <;> first | exact In01_zero | exact In01_clamp01R _

/-- C2: for pairwise-distinct input paths, the groups returned by a
successful run of `groupPhotosTransitive` partition the input paths exactly:
their concatenation is a permutation of the input path list. -/
theorem C2_partition (photos : List Image) (o : GroupConfig) (gs : List (List String))
    (hnd : (photos.map Image.path).Nodup)
    (h : groupPhotosTransitive photos o = some gs) :
    List.Perm gs.flatten (photos.map Image.path) :=
  groupLoop_partition o photos hnd photos [] [] gs h (fun _ hx => hx)
    rfl List.nodup_nil (by simp) (fun p hp _ => hp)

/-- Witness for `C2_partition` on two unlinked photos. -/
theorem C2_witness :
    (([⟨"a", none, none, []⟩, ⟨"b", none, none, []⟩] : List Image).map Image.path).Nodup
    ∧ groupPhotosTransitive [⟨"a", none, none, []⟩, ⟨"b", none, none, []⟩]
        ⟨85/100, 10, 8/10, 1440⟩ = some [["a"], ["b"]]
    ∧ List.Perm ([["a"], ["b"]] : List (List String)).flatten
        (([⟨"a", none, none, []⟩, ⟨"b", none, none, []⟩] : List Image).map Image.path) :=
  ⟨by decide, by decide,
    C2_partition [⟨"a", none, none, []⟩, ⟨"b", none, none, []⟩]
      ⟨85/100, 10, 8/10, 1440⟩ [["a"], ["b"]] (by decide) (by decide)⟩

/-- C8, counterexample: a photo record whose hash string is non-empty but not
valid hexadecimal makes `phashSimilarity` throw (`BigInt("0x" + s)` raises a
`SyntaxError`), so the grouper fails. -/
theorem C8_counterexample :
    groupPhotosTransitive [⟨"a", some "zz", none, []⟩, ⟨"b", some "zz", none, []⟩]
      ⟨85/100, 10, 8/10, 1440⟩ = none := by
  decide

/-- C8, amended: provided every record's non-empty hash string is valid
hexadecimal (true of all `sharp-phash` outputs), `groupPhotosTransitive`
terminates and returns a group list without error; records with missing
hash, missing capture time, or an empty embedding vector only lose linking
power.  Termination is witnessed by the fuel-sufficiency argument
`floodLoop_total` (each loop iteration pops one frontier photo and every push
marks a fresh path as used). -/
theorem C8_total (photos : List Image) (o : GroupConfig)
    (hok : ∀ p ∈ photos, HashOk p) :
    ∃ gs, groupPhotosTransitive photos o = some gs :=
  Option.isSome_iff_exists.mp
    (groupLoop_total o photos hok photos [] [] (fun _ hx => hx) List.nodup_nil)

/-- Witness for `C8_total`, including records with every kind of missing
signal. -/
theorem C8_witness :
    (∀ p ∈ ([⟨"a", none, none, []⟩, ⟨"b", some "ff", some 0, [1]⟩,
        ⟨"c", some "", none, []⟩] : List Image), HashOk p)
    ∧ ∃ gs, groupPhotosTransitive
        [⟨"a", none, none, []⟩, ⟨"b", some "ff", some 0, [1]⟩, ⟨"c", some "", none, []⟩]
        ⟨85/100, 10, 8/10, 1440⟩ = some gs :=
  ⟨by decide,
    C8_total [⟨"a", none, none, []⟩, ⟨"b", some "ff", some 0, [1]⟩,
      ⟨"c", some "", none, []⟩] ⟨85/100, 10, 8/10, 1440⟩ (by decide)⟩

/-- C5, counterexample: two records with identical *empty* hash strings are
not linked by hash — the empty string is JS-falsy, so `a.hash && b.hash`
short-circuits to `false` — and end up in different groups even with
`phashThreshold ≤ 1.0`. -/
theorem C5_counterexample :
    ((⟨"a", some "", some 0, []⟩ : Image).hash = (⟨"b", some "", some 1000000000, []⟩ : Image).hash)
    ∧ ((1 : ℚ) ≤ 1)
    ∧ groupPhotosTransitive
        [⟨"a", some "", some 0, []⟩, ⟨"b", some "", some 1000000000, []⟩]
        ⟨1, 10, 8/10, 1440⟩ = some [["a"], ["b"]]
    ∧ ¬ ∃ G ∈ ([["a"], ["b"]] : List (List String)), "a" ∈ G ∧ "b" ∈ G := by
  decide

/-- C5, amended: two photos of a distinct-path batch carrying identical
*non-empty, hex-parseable* hash strings always land in the same emitted
group when `phashThreshold ≤ 1.0` (their hash similarity is exactly 1, so
they are linked both ways, and flood-fill components respect the link
relation). -/
theorem C5_same_group (photos : List Image) (o : GroupConfig) (gs : List (List String))
    (a b : Image) (hsh : String)
    (hndP : (photos.map Image.path).Nodup)
    (hamem : a ∈ photos) (hbmem : b ∈ photos)
    (hahash : a.hash = some hsh) (hbhash : b.hash = some hsh)
    (hne : hsh ≠ "") (hval : (hexVal? hsh).isSome = true)
    (ht : o.phashThreshold ≤ 1)
    (h : groupPhotosTransitive photos o = some gs) :
    ∃ G ∈ gs, a.path ∈ G ∧ b.path ∈ G := by
  have hperm := groupLoop_partition o photos hndP photos [] [] gs h (fun _ hx => hx)
    rfl List.nodup_nil (by simp) (fun p hp _ => hp)
  have hndj : gs.flatten.Nodup := hperm.nodup_iff.mpr hndP
  have hcl := groupLoop_closure o photos hndP photos [] [] gs h (fun _ hx => hx) rfl
    (by intro i hi; simp at hi)
  have hain : a.path ∈ gs.flatten := hperm.mem_iff.mpr (List.mem_map_of_mem _ hamem)
  have hbin : b.path ∈ gs.flatten := hperm.mem_iff.mpr (List.mem_map_of_mem _ hbmem)
  obtain ⟨Ga, hGa, haGa⟩ := List.mem_flatten.mp hain
  obtain ⟨Gb, hGb, hbGb⟩ := List.mem_flatten.mp hbin
  obtain ⟨⟨i, hilen⟩, hieq⟩ := List.mem_iff_get.mp hGa
  obtain ⟨⟨j, hjlen⟩, hjeq⟩ := List.mem_iff_get.mp hGb
  have hlink_ab := linked_of_same_hash a b o hsh hahash hbhash hne hval ht
  have hlink_ba := linked_of_same_hash b a o hsh hbhash hahash hne hval ht
  have key : ∀ (x y : Image) (k l : ℕ) (hk : k < gs.length) (hl : l < gs.length),
      k < l → x ∈ photos → y ∈ photos → x.path ∈ gs.get ⟨k, hk⟩ →
      y.path ∈ gs.get ⟨l, hl⟩ → areLinked x y o = some true → False := by
    intro x y k l hk hl hkl hx hy hxk hyl hlink
    obtain ⟨m, rfl⟩ : ∃ m, l = (k + 1) + m := ⟨l - (k + 1), by omega⟩
    have hyin : y.path ∈ (gs.take (k + 1)).flatten := hcl k hk x hx hxk y hy hlink
    have hnd2 : ((gs.take (k + 1)).flatten ++ (gs.drop (k + 1)).flatten).Nodup := by
      rw [← List.flatten_append, List.take_append_drop]
      exact hndj
    have hdisj := List.disjoint_of_nodup_append hnd2
    have hb1 : m < (gs.drop (k + 1)).length := by
      rw [List.length_drop]
      omega
    have hGl : gs.get ⟨(k + 1) + m, hl⟩ ∈ gs.drop (k + 1) := by
      have hgd : (gs.drop (k + 1)).get ⟨m, hb1⟩ = gs.get ⟨(k + 1) + m, hl⟩ := by
        rw [List.get_eq_getElem, List.get_eq_getElem, List.getElem_drop]
      rw [← hgd]
      exact List.get_mem _ _ _
    have hydrop : y.path ∈ (gs.drop (k + 1)).flatten :=
      List.mem_flatten.mpr ⟨_, hGl, hyl⟩
    exact hdisj hyin hydrop
  rcases lt_trichotomy i j with hij | hij | hij
  · exact (key a b i j hilen hjlen hij hamem hbmem (hieq ▸ haGa) (hjeq ▸ hbGb) hlink_ab).elim
  · refine ⟨Ga, hGa, haGa, ?_⟩
    have : Ga = Gb := by
      rw [← hieq, ← hjeq]
      congr 1
      exact Fin.ext hij
    rw [this]
    exact hbGb
  · exact (key b a j i hjlen hilen hij hbmem hamem (hjeq ▸ hbGb) (hieq ▸ haGa) hlink_ba).elim

/-- Witness for `C5_same_group`: identical hash `"ff"` groups the two
photos together. -/
theorem C5_witness :
    (([⟨"a", some "ff", none, []⟩, ⟨"b", some "ff", none, []⟩] : List Image).map
      Image.path).Nodup
    ∧ groupPhotosTransitive [⟨"a", some "ff", none, []⟩, ⟨"b", some "ff", none, []⟩]
        ⟨1, 10, 8/10, 1440⟩ = some [["a", "b"]]
    ∧ ∃ G ∈ ([["a", "b"]] : List (List String)),
        (⟨"a", some "ff", none, []⟩ : Image).path ∈ G
        ∧ (⟨"b", some "ff", none, []⟩ : Image).path ∈ G :=
  ⟨by decide, by decide,
    C5_same_group [⟨"a", some "ff", none, []⟩, ⟨"b", some "ff", none, []⟩]
      ⟨1, 10, 8/10, 1440⟩ [["a", "b"]]
      ⟨"a", some "ff", none, []⟩ ⟨"b", some "ff", none, []⟩ "ff"
      (by decide) (by decide) (by decide) rfl rfl (by decide) (by decide) (by decide)
      (by decide)⟩

/-- C9, counterexample: without pairwise-distinct paths the claim fails.
Here a record that links to nothing shares its path `"p"` with another
record; the flood fill from that other record marks `"p"` used (the group
becomes `["p", "r"]`), so the isolated photo is skipped as a seed and no
singleton group `["p"]` is ever emitted. -/
theorem C9_counterexample :
    ((⟨"p", none, some 1000000000, []⟩ : Image)
      ∈ ([⟨"p", none, some 1000, []⟩, ⟨"p", none, some 1000000000, []⟩,
          ⟨"r", none, some 2000, []⟩] : List Image))
    ∧ (∀ q ∈ ([⟨"p", none, some 1000, []⟩, ⟨"p", none, some 1000000000, []⟩,
          ⟨"r", none, some 2000, []⟩] : List Image),
        q ≠ ⟨"p", none, some 1000000000, []⟩ →
        areLinked ⟨"p", none, some 1000000000, []⟩ q ⟨85/100, 10, 8/10, 1440⟩ = some false
        ∧ areLinked q ⟨"p", none, some 1000000000, []⟩ ⟨85/100, 10, 8/10, 1440⟩ = some false)
    ∧ groupPhotosTransitive
        [⟨"p", none, some 1000, []⟩, ⟨"p", none, some 1000000000, []⟩,
          ⟨"r", none, some 2000, []⟩] ⟨85/100, 10, 8/10, 1440⟩ = some [["p", "r"]]
    ∧ ¬ (["p"] ∈ ([["p", "r"]] : List (List String))) := by
  decide

/-- C9, amended: in a batch with pairwise-distinct paths, a photo record
linked to no other record (in either direction) is emitted as the singleton
group `[p.path]` rather than dropped. -/
theorem C9_singleton (photos : List Image) (o : GroupConfig) (gs : List (List String))
    (p : Image) (hndP : (photos.map Image.path).Nodup) (hp : p ∈ photos)
    (hnolink : ∀ q ∈ photos, q ≠ p →
      areLinked p q o = some false ∧ areLinked q p o = some false)
    (h : groupPhotosTransitive photos o = some gs) :
    [p.path] ∈ gs :=
  groupLoop_singleton o photos p hp hndP
    (fun q hq hqp => (hnolink q hq hqp).1)
    (fun q hq hqp => (hnolink q hq hqp).2)
    photos [] [] gs h (fun _ hx => hx)
    (Or.inl ⟨hp, List.not_mem_nil _⟩)

/-- Witness for `C9_singleton` on two mutually unlinked photos. -/
theorem C9_witness :
    (([⟨"a", none, none, []⟩, ⟨"b", none, none, []⟩] : List Image).map Image.path).Nodup
    ∧ (⟨"a", none, none, []⟩ : Image) ∈ ([⟨"a", none, none, []⟩, ⟨"b", none, none, []⟩] : List Image)
    ∧ (∀ q ∈ ([⟨"a", none, none, []⟩, ⟨"b", none, none, []⟩] : List Image),
        q ≠ ⟨"a", none, none, []⟩ →
        areLinked ⟨"a", none, none, []⟩ q ⟨85/100, 10, 8/10, 1440⟩ = some false
        ∧ areLinked q ⟨"a", none, none, []⟩ ⟨85/100, 10, 8/10, 1440⟩ = some false)
    ∧ [(⟨"a", none, none, []⟩ : Image).path] ∈ ([["a"], ["b"]] : List (List String)) :=
  ⟨by decide, by decide, by decide,
    C9_singleton [⟨"a", none, none, []⟩, ⟨"b", none, none, []⟩]
      ⟨85/100, 10, 8/10, 1440⟩ [["a"], ["b"]] ⟨"a", none, none, []⟩
      (by decide) (by decide) (by decide) (by decide)⟩

end PhotoOrg
